import Mathlib

/-!
Shallow embedding of the p2bin converter (src/main.c).

The repository ships two historical variants of the same engine in one
translation unit: a newer one driven by an explicit list of `-z=`
region specifications (`CompressedSegment` list, fatal `NotEnoughSpace`,
lines 33-617), and a legacy one driven by fixed flags (`-zk`, `-3`,
implicit address-0 trigger, warning-only `NotEnoughSpace`,
lines 619-1186).  Both are embedded below: the newer variant in the root
`P2bin` namespace, the legacy variant in `P2bin.Legacy`.

The concrete compression algorithms (accurate-kosinski, clownlzss,
lz_comp2) are external libraries consumed behind a byte-stream interface;
they are modelled as an opaque parameter `enc : Compression -> List Nat ->
List Nat` giving the bytes each backend emits for a given buffer.  The
framing that `main.c` adds around them (16-byte zero padding for
authentic Kosinski, the trailing 0x4E byte for authentic Saxman) is part
of the embedding.  Backend allocation failures are out of scope
(`ClownLZSS_*` returning false), as is the header file failing to open:
both are environment failures, not logic of the engine.

File I/O is modelled by a byte list plus an explicit cursor; `fseek` +
`fwrite` become `writeAt` below, with POSIX semantics (zero-filled holes
when writing past the end, no growth on a zero-length write).  `longjmp`
based fatal errors become `Except Err`.  Machine integers: start
addresses are 4-byte reads (< 2^32) and lengths 2-byte reads (< 2^16),
so all the C arithmetic on `unsigned long` / `unsigned int` is overflow
free and is modelled on `Nat`; the single place where C truncates
(memset of the padding buffer with an `unsigned int` value, i.e. a
conversion to `unsigned char`) is modelled by an explicit `% 256`.
`last_z80_segment_end` is initialised to `(unsigned long)-1`, modelled
as `2^64 - 1` (LP64); record addresses are below `2^32`, so no segment
address can collide with the initial value.
-/

namespace P2bin

/-- `fseek(pos)` followed by `fwrite(data)` on a file whose current
content is `file`: overwrites in place, extends at the end, zero-fills
a hole when seeking past the end.  A zero-length write leaves the file
untouched (a mere seek does not extend a file). -/
def writeAt (file : List Nat) (pos : Nat) (data : List Nat) : List Nat :=
  if data.isEmpty then file
  else file.take pos ++ List.replicate (pos - file.length) 0 ++ data
       ++ file.drop (pos + data.length)

/-- Fatal conditions (`longjmp` targets and the two `return cc_false`
paths of `ProcessRecords`). -/
inductive Err where
  /-- "File ended prematurely." -/
  | prematureEnd : Err
  /-- "Unsupported granularity of %u (only 1 is supported)." -/
  | granularityUnsupported : Nat → Err
  /-- "Unrecognised record header value (0x%02X)." -/
  | unrecognisedHeader : Nat → Err
  /-- "Compressed Z80 segment is too large." -/
  | bufferTooLarge : Err
  /-- "Space reserved for the compressed Z80 segments is too small." -/
  | notEnoughSpace : Err
deriving DecidableEq, Repr

/-! ## Byte/integer reader and record parser (`ReadByte`, `ReadInteger`,
`ProcessRecords` dispatch, lines 73-116 and 361-419) -/

/-- `ReadInteger`: little-endian accumulation
`value |= ReadByte() << (i * 8)`; `none` models the fatal premature-end
path of `ReadByte`. -/
def readIntegerAux : Nat → Nat → Nat → List Nat → Option (Nat × List Nat)
  | 0, _, acc, input => some (acc, input)
  | n + 1, i, acc, input =>
    match input with
    | [] => none
    | b :: rest => readIntegerAux n (i + 1) (acc ||| (b <<< (i * 8))) rest

def readInteger (totalBytes : Nat) (input : List Nat) :
    Option (Nat × List Nat) :=
  readIntegerAux totalBytes 0 0 input

/-- One classified record, before its payload is consumed. -/
inductive ParsedRecord where
  | endOfStream : ParsedRecord
  | entryPoint : Nat → ParsedRecord
  /-- `segment family start length`; the `length` payload bytes follow in
  the remaining stream. -/
  | segment : Nat → Nat → Nat → ParsedRecord
deriving DecidableEq, Repr

inductive ParseOutcome where
  | ok : ParsedRecord → List Nat → ParseOutcome
  | fatal : Err → ParseOutcome
deriving DecidableEq, Repr

/-- The 4-byte start address and 2-byte length that `ProcessSegment`
reads at the front of every segment record's body (lines 256-257). -/
def parseSegmentBody (family : Nat) (input : List Nat) : ParseOutcome :=
  match readInteger 4 input with
  | none => .fatal .prematureEnd
  | some (start, r1) =>
    match readInteger 2 r1 with
    | none => .fatal .prematureEnd
    | some (len, r2) => .ok (.segment family start len) r2

/-- The record-header dispatch of `ProcessRecords` (lines 369-414):
`0x00` end of stream, `0x80` entry point (4-byte address read and
discarded), `0x81` extended segment (family byte, ignored segment byte,
granularity byte that must be 1), any other value below `0x80` a legacy
segment whose header byte is the processor family, anything else fatal. -/
def parseRecord (input : List Nat) : ParseOutcome :=
  match input with
  | [] => .fatal .prematureEnd
  | h :: rest =>
    if h == 0 then .ok .endOfStream rest
    else if h == 0x80 then
      match readInteger 4 rest with
      | none => .fatal .prematureEnd
      | some (addr, r) => .ok (.entryPoint addr) r
    else if h == 0x81 then
      match rest with
      | family :: _segmentId :: granularity :: r =>
        if granularity != 1 then .fatal (.granularityUnsupported granularity)
        else parseSegmentBody family r
      | _ => .fatal .prematureEnd
    else if h ≥ 0x80 then .fatal (.unrecognisedHeader h)
    else parseSegmentBody h rest

/-- A record at the level the segment router consumes it: entry points
carry their (discarded) address, segments carry their payload bytes
(`length` is the payload's length, as the C reads exactly `length`
payload bytes). -/
inductive Rec where
  | entry : Nat → Rec
  | seg : (family : Nat) → (start : Nat) → (payload : List Nat) → Rec
deriving DecidableEq, Repr

/-- Loop of `ProcessRecords` restricted to parsing: classify records and
collect them until the end marker.  `fuel` only serves termination; any
`fuel` larger than `input.length` is enough, since every record consumes
at least one byte. -/
def parseAllAux : Nat → List Nat → Except Err (List Rec)
  | 0, _ => .error .prematureEnd
  | fuel + 1, input =>
    match parseRecord input with
    | .fatal e => .error e
    | .ok .endOfStream _ => .ok []
    | .ok (.entryPoint a) rest =>
      (parseAllAux fuel rest).map (fun rs => .entry a :: rs)
    | .ok (.segment f st len) rest =>
      if len ≤ rest.length then
        (parseAllAux fuel (rest.drop len)).map
          (fun rs => .seg f st (rest.take len) :: rs)
      else .error .prematureEnd

/-! ## Registry variant (lines 33-617): data model -/

/-- `enum Compression` (line 33). -/
inductive Compression where
  | uncompressed | kosinski | kosinskiOptimised
  | saxman | saxmanOptimised | kosinskiPlus
deriving DecidableEq, Repr

/-- `enum Type` (line 43): where compressed data is placed relative to
the previous plain segment. -/
inductive SegType where
  | before | after
deriving DecidableEq, Repr

/-- `struct CompressedSegment` without the intrusive list pointer
(line 49). -/
structure Spec where
  startingAddress : Nat
  compression : Compression
  constant : String
  type : SegType
deriving DecidableEq, Repr

/-- Configuration fixed before record processing: the `-z=` list (in
list order, i.e. reverse of command-line order, since the C prepends),
the `-p=` padding value, and whether a header filename was given. -/
structure Config where
  specs : List Spec
  paddingValue : Nat
  headerConfigured : Bool
deriving DecidableEq, Repr

/-- A codec backend: the bytes the external compressor emits for a given
input buffer.  Opaque, per the byte-stream contract. -/
abbrev Enc := Compression → List Nat → List Nat

/-- The mutable globals of the registry variant. -/
structure St where
  /-- output file content -/
  file : List Nat
  /-- `ftell(output_file)` -/
  cursor : Nat
  /-- `maximum_address` -/
  maximumAddress : Nat
  /-- `last_z80_segment_end`, initially `(unsigned long)-1` -/
  lastZ80End : Nat
  /-- `z80_buffer[0 .. z80_write_index)` -/
  zbuf : List Nat
  /-- `current_compressed_segment` -/
  current : Option Spec
  /-- `previous_68k_segment_start` -/
  prev68kStart : Nat
  /-- `previous_68k_segment_length` -/
  prev68kLen : Nat
  /-- the `comp_z80_size` lines written to the header file, in order -/
  reports : List (String × Nat)
deriving DecidableEq, Repr

def initialState : St :=
  { file := [], cursor := 0, maximumAddress := 0,
    lastZ80End := 2 ^ 64 - 1, zbuf := [], current := none,
    prev68kStart := 0, prev68kLen := 0, reports := [] }

/-- Observable events of one processing run, used to state trace
properties (flush discipline, write ordering, reporting). -/
inductive Ev where
  /-- One call of `EmitCompressedZ80Code`: whether a run was open, and
  the output-cursor positions before and after the codec. -/
  | flushed : Bool → Nat → Nat → Ev
  /-- A new compressible run was opened at this trigger address. -/
  | opened : Nat → Ev
  /-- A verbatim segment (with its padding) was written:
  start address and end address. -/
  | wrotePlain : Nat → Nat → Ev
  /-- A size report was written to the header file. -/
  | reported : String → Nat → Ev
deriving DecidableEq, Repr

/-! ## Registry variant: codec dispatch and flush
(`EmitCompressedZ80Code`, lines 168-252) -/

/-- The byte span one codec case of `EmitCompressedZ80Code` emits at the
cursor: the backend's own bytes plus the framing `main.c` adds — zero
padding to the next 16-byte boundary for authentic Kosinski
(`bytes_to_pad = -(ftell - start) & 0xF`, lines 193-197) and the
trailing `'N'` (0x4E) byte for authentic Saxman (line 213). -/
def codecOutput (enc : Enc) (c : Compression) (buf : List Nat) : List Nat :=
  match c with
  | .uncompressed => buf
  | .kosinski =>
    let e := enc .kosinski buf
    e ++ List.replicate ((16 - e.length % 16) % 16) 0
  | .kosinskiOptimised => enc .kosinskiOptimised buf
  | .saxman => enc .saxman buf ++ [0x4E]
  | .saxmanOptimised => enc .saxmanOptimised buf
  | .kosinskiPlus => enc .kosinskiPlus buf

/-- The cursor position the codec writes from (lines 174-178): a
`Before`-type region first seeks back to the previous plain segment's
start; an `After`-type region writes at the current cursor. -/
def flushStart (s : St) (seg : Spec) : Nat :=
  if seg.type == SegType.before then s.prev68kStart else s.cursor

/-- The state after the codec ran and `maximum_address` was raised from
the new cursor (lines 178-246): the compressed span sits at
`flushStart`, the cursor is at its end, and the run is closed. -/
def flushedState (enc : Enc) (s : St) (seg : Spec) : St :=
  let start0 := flushStart s seg
  let out := codecOutput enc seg.compression s.zbuf
  { s with file := writeAt s.file start0 out,
           cursor := start0 + out.length,
           maximumAddress := max s.maximumAddress (start0 + out.length),
           current := none }

/-- `EmitCompressedZ80Code` (lines 168-252).  No-op returning 0 when no
run is open.  Otherwise: run the codec at `flushStart`;
`compressed_z80_code_size = end_address - start_address`; for `Before`,
fatal `NotEnoughSpace` when that size exceeds
`previous_68k_segment_length` (line 243). -/
def emit (enc : Enc) (s : St) : Except Err (St × Nat × List Ev) :=
  match s.current with
  | none => .ok (s, 0, [.flushed false s.cursor s.cursor])
  | some seg =>
    let start0 := flushStart s seg
    let out := codecOutput enc seg.compression s.zbuf
    let endAddr := start0 + out.length
    if seg.type == SegType.before && decide (endAddr - start0 > s.prev68kLen) then
      .error .notEnoughSpace
    else
      .ok (flushedState enc s seg, endAddr - start0,
           [.flushed true start0 endAddr])

/-! ## Registry variant: segment router (`ProcessSegment`, lines 254-359) -/

/-- The spec-list lookup of lines 262-265: first registered region whose
starting address matches, only consulted for Z80 (0x51) segments. -/
def matchingSpec (cfg : Config) (family start : Nat) : Option Spec :=
  if family == 0x51 then
    cfg.specs.find? (fun g => g.startingAddress == start)
  else none

/-- `is_continued_compressed_segment` (line 260). -/
def isCont (s : St) (family start : Nat) : Bool :=
  family == 0x51 && s.current.isSome && start == s.lastZ80End

/-- Lines 284-293: record the run's new end address, reject fatally when
the 8 KiB `z80_buffer` would overflow, otherwise append the payload. -/
def appendStep (s : St) (start : Nat) (payload : List Nat) :
    Except Err (St × List Ev) :=
  let s1 := { s with lastZ80End := start + payload.length }
  if s1.zbuf.length + payload.length > 0x2000 then .error .bufferTooLarge
  else .ok ({ s1 with zbuf := s1.zbuf ++ payload }, [])

/-- Lines 280-281: bind the fresh run to the matching region spec and
reset the buffer indices. -/
def openRun (cfg : Config) (s : St) (family start : Nat) : St :=
  { s with current := matchingSpec cfg family start, zbuf := [] }

/-- The compressible branch of `ProcessSegment` (lines 269-294): a
non-continuing eligible segment first flushes any open run, then opens a
new run bound to the matching spec with an empty buffer. -/
def runStep (cfg : Config) (enc : Enc) (s : St) (family start : Nat)
    (payload : List Nat) : Except Err (St × List Ev) :=
  if isCont s family start then appendStep s start payload
  else
    match emit enc s with
    | .error e => .error e
    | .ok (s1, _, evs) =>
      match appendStep (openRun cfg s1 family start) start payload with
      | .error e => .error e
      | .ok (s2, evs2) => .ok (s2, evs ++ [.opened start] ++ evs2)

/-- Lines 311-326: append one `comp_z80_size 0x%lX` report to the header
file when one is configured. -/
def reportStep (cfg : Config) (s : St) (size : Nat) : St × List Ev :=
  if cfg.headerConfigured then
    ({ s with reports := s.reports ++ [("comp_z80_size", size)] },
     [.reported "comp_z80_size" size])
  else (s, [])

/-- Lines 329-357: pad with the configured byte (an `unsigned char`,
hence `% 256`, set by `memset(padding_buffer, padding_value, ...)` at
line 363) from `maximum_address` up to `start_address` when the segment
starts past the high-water mark, else seek back; copy the payload;
raise `maximum_address` to the end address; remember the plain segment.
The chunked `fwrite` loops write exactly the same bytes as one write. -/
def padTo (cfg : Config) (s : St) (start : Nat) : St :=
  { s with file := writeAt s.file s.maximumAddress
             (List.replicate (start - s.maximumAddress)
               (cfg.paddingValue % 256)),
           cursor := start }

def copySeg (s : St) (start : Nat) (payload : List Nat) : St :=
  { s with file := writeAt s.file start payload,
           cursor := start + payload.length,
           maximumAddress := max s.maximumAddress (start + payload.length),
           prev68kStart := start, prev68kLen := payload.length }

def writePlain (cfg : Config) (s : St) (start : Nat) (payload : List Nat) :
    St × List Ev :=
  (copySeg
    (if decide (start > s.maximumAddress) then padTo cfg s start
     else { s with cursor := start })
    start payload,
   [.wrotePlain start (start + payload.length)])

/-- The verbatim branch of `ProcessSegment` (lines 295-358): flush any
open run; fatal `NotEnoughSpace` for an `After`-type region when the
incoming segment starts below the codec's ending cursor (line 308);
report the size; write the segment. -/
def plainStep (cfg : Config) (enc : Enc) (s : St) (start : Nat)
    (payload : List Nat) : Except Err (St × List Ev) :=
  match s.current with
  | none => .ok (writePlain cfg s start payload)
  | some seg =>
    match emit enc s with
    | .error e => .error e
    | .ok (s1, size, evs) =>
      if seg.type == SegType.after && decide (start < s1.cursor) then
        .error .notEnoughSpace
      else
        let (s2, evs2) := reportStep cfg s1 size
        let (s3, evs3) := writePlain cfg s2 start payload
        .ok (s3, evs ++ evs2 ++ evs3)

/-- `ProcessSegment` (lines 254-359). -/
def processSegment (cfg : Config) (enc : Enc) (s : St) (family start : Nat)
    (payload : List Nat) : Except Err (St × List Ev) :=
  if (matchingSpec cfg family start).isSome || isCont s family start then
    runStep cfg enc s family start payload
  else plainStep cfg enc s start payload

/-- The record loop of `ProcessRecords` (lines 367-415) at segment
level: entry points are read and discarded; the end marker flushes any
open run one last time. -/
def processRecords (cfg : Config) (enc : Enc) :
    List Rec → St → Except Err (St × List Ev)
  | [], s =>
    match emit enc s with
    | .error e => .error e
    | .ok (s1, _, evs) => .ok (s1, evs)
  | .entry _ :: rest, s => processRecords cfg enc rest s
  | .seg f a p :: rest, s =>
    match processSegment cfg enc s f a p with
    | .error e => .error e
    | .ok (s1, evs1) =>
      match processRecords cfg enc rest s1 with
      | .error e => .error e
      | .ok (s2, evs2) => .ok (s2, evs1 ++ evs2)

/-! ## Legacy variant (lines 619-1186) -/

namespace Legacy

/-- `enum Compression` of the legacy variant (line 650): no Kosinski+. -/
inductive Compression where
  | uncompressed | kosinski | kosinskiOptimised | saxman | saxmanOptimised
deriving DecidableEq, Repr

abbrev Enc := Compression → List Nat → List Nat

/-- Legacy configuration: the global compression format (`-zk` etc.),
the skdisasm compatibility flag (`-3`), the additional compressed
segment address (`-c`, default 0), the padding value (`-p`), the two
`-l` constants (default `[UNKNOWN]`), and whether a header filename was
given. -/
structure Config where
  compressionFormat : Compression
  skdisasm : Bool
  additionalAddr : Nat
  paddingValue : Nat
  constants : String × String
  headerConfigured : Bool
deriving DecidableEq, Repr

/-- `constants[current_constant]` (line 768); `current_constant` is only
ever 0 or 1. -/
def constAt (cfg : Config) (i : Nat) : String :=
  if i == 0 then cfg.constants.1 else cfg.constants.2

/-- The mutable globals of the legacy variant.  Warnings are the
`NotEnoughSpace` diagnostics (line 766-769), which in this variant do
not abort: each carries the constant named and the measured size. -/
structure St where
  file : List Nat
  cursor : Nat
  maximumAddress : Nat
  /-- `last_segment_was_compressable_z80_code` -/
  lastWasCompressible : Bool
  lastZ80End : Nat
  zbuf : List Nat
  prev68kStart : Nat
  prev68kLen : Nat
  currentConstant : Nat
  warnings : List (String × Nat)
  reports : List (String × Nat)
deriving DecidableEq, Repr

def initialState : St :=
  { file := [], cursor := 0, maximumAddress := 0,
    lastWasCompressible := false, lastZ80End := 2 ^ 64 - 1, zbuf := [],
    prev68kStart := 0, prev68kLen := 0, currentConstant := 0,
    warnings := [], reports := [] }

/-- Codec framing of the legacy `EmitCompressedZ80Code`
(lines 783-827): same as the registry variant, minus Kosinski+. -/
def codecOutput (enc : Enc) (c : Compression) (buf : List Nat) : List Nat :=
  match c with
  | .uncompressed => buf
  | .kosinski =>
    let e := enc .kosinski buf
    e ++ List.replicate ((16 - e.length % 16) % 16) 0
  | .kosinskiOptimised => enc .kosinskiOptimised buf
  | .saxman => enc .saxman buf ++ [0x4E]
  | .saxmanOptimised => enc .saxmanOptimised buf

/-- Legacy `EmitCompressedZ80Code` (lines 771-846).  The rewind is
keyed on the global `skdisasm_compatibility` flag; the size check
against the previous segment (line 837) merely warns (`NotEnoughSpace`
here is `fprintf` without `longjmp`).  Nothing in it is fatal. -/
def emit (enc : Enc) (cfg : Config) (s : St) : St × Nat :=
  if s.lastWasCompressible then
    let start0 := if cfg.skdisasm then s.prev68kStart else s.cursor
    let out := codecOutput enc cfg.compressionFormat s.zbuf
    let endAddr := start0 + out.length
    let size := endAddr - start0
    let warns :=
      if cfg.skdisasm && decide (size > s.prev68kLen) then
        s.warnings ++ [(constAt cfg s.currentConstant, size)]
      else s.warnings
    ({ s with file := writeAt s.file start0 out,
              cursor := endAddr,
              maximumAddress := max s.maximumAddress endAddr,
              lastWasCompressible := false,
              warnings := warns }, size)
  else (s, 0)

def padTo (cfg : Config) (s : St) (start : Nat) : St :=
  { s with file := writeAt s.file s.maximumAddress
             (List.replicate (start - s.maximumAddress)
               (cfg.paddingValue % 256)),
           cursor := start }

def copySeg (s : St) (start : Nat) (payload : List Nat) : St :=
  { s with file := writeAt s.file start payload,
           cursor := start + payload.length,
           maximumAddress := max s.maximumAddress (start + payload.length),
           prev68kStart := start, prev68kLen := payload.length }

/-- Lines 919-949: identical padding / copy / bookkeeping to the
registry variant's plain write. -/
def writePlain (cfg : Config) (s : St) (start : Nat) (payload : List Nat) :
    St :=
  copySeg
    (if decide (start > s.maximumAddress) then padTo cfg s start
     else { s with cursor := start })
    start payload

/-- Lines 895-917: after the flush preceding a verbatim segment, a
non-zero compressed size is checked against the incoming segment's
start address — `NotEnoughSpace` is a warning only in this variant,
and only outside skdisasm mode (the skdisasm check lives in `emit`) —
and then reported to the header file when one is configured. -/
def postFlush (cfg : Config) (s : St) (start size : Nat) : St :=
  if size != 0 then
    let s1 :=
      if !cfg.skdisasm && decide (start < s.cursor) then
        { s with warnings :=
            s.warnings ++ [(constAt cfg s.currentConstant, size)] }
      else s
    if cfg.headerConfigured then
      { s1 with reports := s1.reports ++ [("comp_z80_size", size)] }
    else s1
  else s

/-- The eligibility test of line 856: Z80 family and (address 0, the
`-c` address, or a direct continuation of an open run). -/
def eligible (cfg : Config) (s : St) (family start : Nat) : Bool :=
  family == 0x51 && (start == 0 || start == cfg.additionalAddr ||
    (s.lastWasCompressible && start == s.lastZ80End))

/-- Legacy `ProcessSegment` (lines 848-951).  A new chunk begins
whenever `start != last_z80_end`; the constant index is selected by
which trigger matched.  The verbatim branch flushes, runs `postFlush`,
then writes the segment. -/
def processSegment (cfg : Config) (enc : Enc) (s : St) (family start : Nat)
    (payload : List Nat) : Except Err St :=
  let len := payload.length
  let endAddr := start + len
  if eligible cfg s family start then
    let s1 :=
      if start != s.lastZ80End then
        let s2 := (emit enc cfg s).1
        let cc :=
          if start == 0 then 0
          else if start == cfg.additionalAddr then 1
          else s2.currentConstant
        { s2 with lastWasCompressible := true, zbuf := [],
                  currentConstant := cc }
      else s
    let s1 := { s1 with lastZ80End := endAddr }
    if s1.zbuf.length + len > 0x2000 then .error .bufferTooLarge
    else .ok { s1 with zbuf := s1.zbuf ++ payload }
  else
    .ok (writePlain cfg
      (postFlush cfg (emit enc cfg s).1 start (emit enc cfg s).2)
      start payload)

end Legacy

/-! ## Concrete inputs used by witnesses -/

/-- An identity "codec": every backend emits its input buffer
unchanged (the shape a `-z=...,uncompressed,...` configuration takes). -/
def encId : Enc := fun _ buf => buf

def specC1 : Spec :=
  { startingAddress := 0, compression := .uncompressed,
    constant := "ZSZ", type := .after }

def cfgC1 : Config :=
  { specs := [specC1], paddingValue := 0, headerConfigured := true }

def stC6 : St :=
  { initialState with lastZ80End := 2, zbuf := [1, 2],
                      current := some specC1 }

def recsC1 : List Rec := [.seg 0x51 0 [1, 2], .seg 0 0x10 [3, 4]]

def stC1 : St :=
  { file := [1, 2, 0, 0, 0, 0, 0, 0, 0, 0, 0, 0, 0, 0, 0, 0, 3, 4],
    cursor := 18, maximumAddress := 18, lastZ80End := 2, zbuf := [1, 2],
    current := none, prev68kStart := 16, prev68kLen := 2,
    reports := [("comp_z80_size", 2)] }

def evsC1 : List Ev :=
  [.flushed false 0 0, .opened 0, .flushed true 0 2,
   .reported "comp_z80_size" 2, .wrotePlain 16 18, .flushed false 18 18]

def specC7 : Spec :=
  { startingAddress := 0, compression := .uncompressed, constant := "K",
    type := .before }

def stC7 : St :=
  { file := [0, 0, 0, 0, 0], cursor := 5, maximumAddress := 5,
    lastZ80End := 2, zbuf := [7, 8], current := some specC7,
    prev68kStart := 0, prev68kLen := 5, reports := [] }

def stC7out : St :=
  { file := [7, 8, 0, 0, 0], cursor := 2, maximumAddress := 5,
    lastZ80End := 2, zbuf := [7, 8], current := none,
    prev68kStart := 0, prev68kLen := 5, reports := [] }

def stC6out : St :=
  { file := [1, 2], cursor := 2, maximumAddress := 2, lastZ80End := 2,
    zbuf := [1, 2], current := none, prev68kStart := 0, prev68kLen := 0,
    reports := [] }

/-- Identity codec for the legacy variant. -/
def encIdL : Legacy.Enc := fun _ buf => buf

def cfgL : Legacy.Config :=
  { compressionFormat := .uncompressed, skdisasm := false,
    additionalAddr := 7, paddingValue := 0,
    constants := ("CONST1", "CONST2"), headerConfigured := true }

def stL : Legacy.St :=
  { Legacy.initialState with lastWasCompressible := true, zbuf := [1, 2] }

def stLout : Legacy.St :=
  { file := [1, 2], cursor := 2, maximumAddress := 2,
    lastWasCompressible := false, lastZ80End := 2 ^ 64 - 1,
    zbuf := [1, 2], prev68kStart := 0, prev68kLen := 0,
    currentConstant := 0, warnings := [], reports := [] }

def cfgL4 : Legacy.Config := { cfgL with skdisasm := true }

def stL4 : Legacy.St :=
  { Legacy.initialState with lastWasCompressible := true, zbuf := [1, 2],
                             prev68kLen := 1 }

def stC4 : St :=
  { file := [1, 2], cursor := 2, maximumAddress := 2, lastZ80End := 2,
    zbuf := [1, 2], current := none, prev68kStart := 0, prev68kLen := 0,
    reports := [] }

def cfgEmpty : Config :=
  { specs := [], paddingValue := 0, headerConfigured := false }

def stC8e : St :=
  { file := [1, 2], cursor := 2, maximumAddress := 2,
    lastZ80End := 2 ^ 64 - 1, zbuf := [], current := none,
    prev68kStart := 0, prev68kLen := 2, reports := [] }

def stL8 : Legacy.St :=
  { file := [], cursor := 0, maximumAddress := 0,
    lastWasCompressible := true, lastZ80End := 2, zbuf := [1, 2],
    prev68kStart := 0, prev68kLen := 0, currentConstant := 0,
    warnings := [], reports := [] }

def cfgC10 : Config :=
  { specs := [], paddingValue := 0x1FF, headerConfigured := false }

def specC9 : Spec :=
  { startingAddress := 0, compression := .kosinski, constant := "K9",
    type := .after }

def stC9 : St :=
  { file := [], cursor := 0, maximumAddress := 0,
    lastZ80End := 3, zbuf := [1, 2, 3], current := some specC9,
    prev68kStart := 0, prev68kLen := 0, reports := [] }

def stC9out : St :=
  { file := [1, 2, 3, 0, 0, 0, 0, 0, 0, 0, 0, 0, 0, 0, 0, 0],
    cursor := 16, maximumAddress := 16,
    lastZ80End := 3, zbuf := [1, 2, 3], current := none,
    prev68kStart := 0, prev68kLen := 0, reports := [] }

/-! ## Trace predicates for the registry variant -/

/-- Replay of the run-open bit over a trace: a flush closes the run, an
opening opens it. -/
def openBit : Bool → List Ev → Bool
  | b, [] => b
  | _, .flushed _ _ _ :: tl => openBit false tl
  | _, .opened _ :: tl => openBit true tl
  | b, .wrotePlain _ _ :: tl => openBit b tl
  | b, .reported _ _ :: tl => openBit b tl

/-- Flush discipline of a trace, starting from run-open bit `b`: every
flush event records the actual open state, a run is only opened while no
run is open, and verbatim data is only written while no run is open. -/
def runDisc : Bool → List Ev → Bool
  | _, [] => true
  | b, .flushed w _ _ :: tl => (w == b) && runDisc false tl
  | b, .opened _ :: tl => !b && runDisc true tl
  | b, .wrotePlain _ _ :: tl => !b && runDisc b tl
  | b, .reported _ _ :: tl => runDisc b tl

/-- Number of flushes of an actually-open run in a trace. -/
def realFlushCount : List Ev → Nat
  | [] => 0
  | .flushed true _ _ :: tl => realFlushCount tl + 1
  | .flushed false _ _ :: tl => realFlushCount tl
  | .opened _ :: tl => realFlushCount tl
  | .wrotePlain _ _ :: tl => realFlushCount tl
  | .reported _ _ :: tl => realFlushCount tl

/-- Number of run openings in a trace. -/
def openedCount : List Ev → Nat
  | [] => 0
  | .opened _ :: tl => openedCount tl + 1
  | .flushed _ _ _ :: tl => openedCount tl
  | .wrotePlain _ _ :: tl => openedCount tl
  | .reported _ _ :: tl => openedCount tl

/-- The output end position of a write event (0 for non-writes). -/
def evEnd : Ev → Nat
  | .flushed _ _ e => e
  | .wrotePlain _ e => e
  | .opened _ => 0
  | .reported _ _ => 0

/-- Running maximum of write end positions over a trace. -/
def maxEnd (evs : List Ev) (m : Nat) : Nat :=
  evs.foldl (fun acc e => max acc (evEnd e)) m

/-- Well-formedness tying the file model to the tracked addresses: the
file's length is exactly `maximum_address`, and the cursor and the
remembered plain-segment start never point past it. -/
def wfSt (s : St) : Prop :=
  s.file.length = s.maximumAddress ∧ s.cursor ≤ s.maximumAddress ∧
    s.prev68kStart ≤ s.maximumAddress

theorem openBit_append (e1 e2 : List Ev) (b : Bool) :
    openBit b (e1 ++ e2) = openBit (openBit b e1) e2 := by
  induction e1 generalizing b with
  | nil => rfl
  | cons e tl ih => cases e <;> simp [openBit, ih]

theorem runDisc_append (e1 e2 : List Ev) (b : Bool) :
    runDisc b (e1 ++ e2) = (runDisc b e1 && runDisc (openBit b e1) e2) := by
  induction e1 generalizing b with
  | nil => rfl
  | cons e tl ih => cases e <;> simp [runDisc, openBit, ih, Bool.and_assoc]

/-- Counting consequence of the flush discipline: openings and real
flushes balance, up to the run-open bits at the two ends of the trace. -/
theorem runDisc_count (evs : List Ev) (b : Bool) (h : runDisc b evs = true) :
    openedCount evs + (if b then 1 else 0)
      = realFlushCount evs + (if openBit b evs then 1 else 0) := by
  induction evs generalizing b with
  | nil => cases b <;> simp [openedCount, realFlushCount, openBit]
  | cons e tl ih =>
    cases e with
    | flushed w x y =>
      simp only [runDisc, Bool.and_eq_true, beq_iff_eq] at h
      obtain ⟨hw, htl⟩ := h
      have h2 := ih false htl
      rw [hw] at *
      cases b <;>
        simp only [openedCount, realFlushCount, openBit, if_true, if_false,
          Bool.false_eq_true, reduceIte] at h2 ⊢ <;>
        omega
    | opened a =>
      simp only [runDisc, Bool.and_eq_true, Bool.not_eq_true'] at h
      obtain ⟨hb, htl⟩ := h
      have h2 := ih true htl
      rw [hb]
      simp only [openedCount, realFlushCount, openBit, reduceIte,
        Bool.false_eq_true] at h2 ⊢
      omega
    | wrotePlain x y =>
      simp only [runDisc, Bool.and_eq_true, Bool.not_eq_true'] at h
      obtain ⟨hb, htl⟩ := h
      have h2 := ih b htl
      simpa [openedCount, realFlushCount, openBit] using h2
    | reported t z =>
      simp only [runDisc] at h
      have h2 := ih b h
      simpa [openedCount, realFlushCount, openBit] using h2

/-! ## Step lemmas for the registry variant -/

/-- Flushing with no open run is a complete no-op: same state (in
particular the same output file), zero reported size. -/
theorem emit_none (enc : Enc) (s : St) (h : s.current = none) :
    emit enc s = .ok (s, 0, [.flushed false s.cursor s.cursor]) := by
  simp [emit, h]

/-- Every successful flush closes the run and emits exactly one flush
event whose recorded openness is the actual one. -/
theorem emit_shape (enc : Enc) (s s1 : St) (size : Nat) (evs : List Ev)
    (h : emit enc s = .ok (s1, size, evs)) :
    s1.current = none ∧ ∃ x y, evs = [.flushed s.current.isSome x y] := by
  cases hc : s.current with
  | none =>
    rw [emit_none enc s hc] at h
    simp only [Except.ok.injEq, Prod.mk.injEq] at h
    obtain ⟨h1, _, h3⟩ := h
    subst h1; subst h3
    exact ⟨hc, s.cursor, s.cursor, by simp [hc]⟩
  | some seg =>
    simp only [emit, hc] at h
    split at h
    · exact Except.noConfusion h
    · simp only [Except.ok.injEq, Prod.mk.injEq] at h
      obtain ⟨h1, _, h3⟩ := h
      subst h1; subst h3
      refine ⟨rfl, flushStart s seg,
        flushStart s seg + (codecOutput enc seg.compression s.zbuf).length,
        by simp [hc]⟩

theorem writePlain_current (cfg : Config) (s : St) (start : Nat)
    (payload : List Nat) :
    ((writePlain cfg s start payload).1).current = s.current := by
  simp only [writePlain]
  split <;> rfl

theorem writePlain_evs (cfg : Config) (s : St) (start : Nat)
    (payload : List Nat) :
    (writePlain cfg s start payload).2
      = [.wrotePlain start (start + payload.length)] := by
  simp only [writePlain]

theorem reportStep_current (cfg : Config) (s : St) (size : Nat) :
    ((reportStep cfg s size).1).current = s.current := by
  simp only [reportStep]
  split <;> rfl

theorem reportStep_evs (cfg : Config) (s : St) (size : Nat) :
    (reportStep cfg s size).2 = []
      ∨ (reportStep cfg s size).2 = [.reported "comp_z80_size" size] := by
  simp only [reportStep]
  split
  · exact Or.inr rfl
  · exact Or.inl rfl

theorem appendStep_shape (s s1 : St) (start : Nat) (payload : List Nat)
    (evs : List Ev) (h : appendStep s start payload = .ok (s1, evs)) :
    evs = [] ∧ s1.current = s.current := by
  simp only [appendStep] at h
  split at h
  · exact Except.noConfusion h
  · simp only [Except.ok.injEq, Prod.mk.injEq] at h
    obtain ⟨h1, h2⟩ := h
    subst h1; subst h2
    exact ⟨rfl, rfl⟩

theorem openRun_current (cfg : Config) (s : St) (family start : Nat) :
    (openRun cfg s family start).current = matchingSpec cfg family start :=
  rfl

/-- One routed segment respects the flush discipline, and the trace's
final open bit matches the state's. -/
theorem processSegment_disc (cfg : Config) (enc : Enc) (s : St)
    (f a : Nat) (p : List Nat) (s1 : St) (evs : List Ev)
    (h : processSegment cfg enc s f a p = .ok (s1, evs)) :
    runDisc s.current.isSome evs = true
      ∧ openBit s.current.isSome evs = s1.current.isSome := by
  unfold processSegment at h
  split at h
  case isTrue helig =>
    unfold runStep at h
    split at h
    case isTrue hcont =>
      obtain ⟨hevs, hcur⟩ := appendStep_shape _ _ _ _ _ h
      subst hevs
      simp [runDisc, openBit, hcur]
    case isFalse hcont =>
      cases hemit : emit enc s with
      | error e => simp only [hemit] at h; exact Except.noConfusion h
      | ok v =>
        obtain ⟨s2, sz, evs0⟩ := v
        simp only [hemit] at h
        obtain ⟨hc2, x, y, hevs0⟩ := emit_shape enc s s2 sz evs0 hemit
        cases happ : appendStep (openRun cfg s2 f a) a p with
        | error e =>
          simp only [hemit, happ] at h
          exact Except.noConfusion h
        | ok w =>
          obtain ⟨s3, evs2⟩ := w
          simp only [happ] at h
          obtain ⟨hevs2, hc3⟩ := appendStep_shape _ _ _ _ _ happ
          simp only [Except.ok.injEq, Prod.mk.injEq] at h
          obtain ⟨h1, h2⟩ := h
          subst h1; subst h2; subst hevs0; subst hevs2
          have hsome : (matchingSpec cfg f a).isSome = true := by
            rcases Bool.or_eq_true _ _ |>.mp helig with hm | hcon
            · exact hm
            · exact absurd hcon (by simp [hcont])
          rw [openRun_current] at hc3
          simp [runDisc, openBit, runDisc_append, openBit_append, hc3, hsome]
  case isFalse helig =>
    unfold plainStep at h
    cases hc : s.current with
    | none =>
      rw [hc] at h
      simp only [Except.ok.injEq] at h
      have h1 : (writePlain cfg s a p).1 = s1 := by rw [h]
      have h2 : (writePlain cfg s a p).2 = evs := by rw [h]
      rw [writePlain_evs] at h2
      subst h2
      simp [runDisc, openBit, hc, ← h1, writePlain_current]
    | some seg =>
      rw [hc] at h
      cases hemit : emit enc s with
      | error e => simp only [hemit] at h; exact Except.noConfusion h
      | ok v =>
        obtain ⟨s2, sz, evs0⟩ := v
        simp only [hemit] at h
        obtain ⟨hc2, x, y, hevs0⟩ := emit_shape enc s s2 sz evs0 hemit
        split at h
        · exact Except.noConfusion h
        · simp only [Except.ok.injEq, Prod.mk.injEq] at h
          obtain ⟨h1, h2⟩ := h
          subst hevs0
          rcases reportStep_evs cfg s2 sz with hr | hr <;>
            rw [writePlain_evs] at h2 <;> rw [hr] at h2 <;> subst h2 <;>
            simp [runDisc, openBit, ← h1, writePlain_current,
              reportStep_current, hc2, hc]

/-- A whole processing run respects the flush discipline and ends with
no run open (the end-of-stream marker flushes any remaining run). -/
theorem processRecords_disc (cfg : Config) (enc : Enc) (recs : List Rec) :
    ∀ (s s1 : St) (evs : List Ev),
      processRecords cfg enc recs s = .ok (s1, evs) →
      runDisc s.current.isSome evs = true ∧ s1.current = none
        ∧ openBit s.current.isSome evs = false := by
  induction recs with
  | nil =>
    intro s s1 evs h
    simp only [processRecords] at h
    cases hemit : emit enc s with
    | error e => simp only [hemit] at h; exact Except.noConfusion h
    | ok v =>
      obtain ⟨s2, sz, evs0⟩ := v
      rw [hemit] at h
      obtain ⟨hc2, x, y, hevs0⟩ := emit_shape enc s s2 sz evs0 hemit
      simp only [Except.ok.injEq, Prod.mk.injEq] at h
      obtain ⟨h1, h2⟩ := h
      subst h1; subst h2; subst hevs0
      simp [runDisc, openBit, hc2]
  | cons r rest ih =>
    intro s s1 evs h
    cases r with
    | entry addr => exact ih s s1 evs h
    | seg f a p =>
      simp only [processRecords] at h
      cases hps : processSegment cfg enc s f a p with
      | error e => simp only [hps] at h; exact Except.noConfusion h
      | ok v =>
        obtain ⟨s2, evs1⟩ := v
        simp only [hps] at h
        cases hpr : processRecords cfg enc rest s2 with
        | error e => simp only [hps, hpr] at h; exact Except.noConfusion h
        | ok w =>
          obtain ⟨s3, evs2⟩ := w
          simp only [hpr] at h
          simp only [Except.ok.injEq, Prod.mk.injEq] at h
          obtain ⟨h1, h2⟩ := h
          subst h1; subst h2
          obtain ⟨hd1, hb1⟩ := processSegment_disc cfg enc s f a p s2 evs1 hps
          obtain ⟨hd2, hfin, hb2⟩ := ih s2 s3 evs2 hpr
          refine ⟨?_, hfin, ?_⟩
          · rw [runDisc_append, hd1, hb1, hd2]
            rfl
          · rw [openBit_append, hb1, hb2]

/-! ## Claim C1 -/

/-- C1: for every input record stream that the registry variant
processes to completion, the event trace satisfies the flush
discipline `runDisc` — every flush event records the true open/closed
state of the run, a new run is only ever opened when no run is open
(so a non-contiguous trigger flushes the previous run first), and a
verbatim segment is only ever written when no run is open (so any open
run is flushed before it); processing ends with no run open (the
end-of-stream marker flushed it); and the number of run openings
equals the number of flushes of an open run, i.e. each maximal
contiguous subsequence of qualifying segments is flushed exactly once.
Moreover `EmitCompressedZ80Code` with no open run is a no-op: it
returns size 0 and leaves the state — in particular the output file —
untouched. -/
theorem claim1_run_flush_discipline :
    (∀ (cfg : Config) (enc : Enc) (recs : List Rec) (s1 : St)
        (evs : List Ev),
        processRecords cfg enc recs initialState = .ok (s1, evs) →
        runDisc false evs = true ∧ s1.current = none
          ∧ openedCount evs = realFlushCount evs)
      ∧ (∀ (enc : Enc) (s : St), s.current = none →
          emit enc s = .ok (s, 0, [.flushed false s.cursor s.cursor])) := by
  refine ⟨?_, emit_none⟩
  intro cfg enc recs s1 evs h
  have hd := processRecords_disc cfg enc recs initialState s1 evs h
  have h0 : initialState.current.isSome = false := rfl
  rw [h0] at hd
  obtain ⟨hrd, hfin, hob⟩ := hd
  refine ⟨hrd, hfin, ?_⟩
  have hc := runDisc_count evs false hrd
  rw [hob] at hc
  simpa using hc

theorem claim1_witness :
    (runDisc false evsC1 = true ∧ stC1.current = none
      ∧ openedCount evsC1 = realFlushCount evsC1)
    ∧ emit encId initialState
        = .ok (initialState, 0, [.flushed false 0 0]) :=
  ⟨claim1_run_flush_discipline.1 cfgC1 encId recsC1 stC1 evsC1 rfl,
   claim1_run_flush_discipline.2 encId initialState rfl⟩

/-! ## Output-image geometry lemmas -/

theorem writeAt_length (file : List Nat) (pos : Nat) (data : List Nat)
    (h : pos ≤ file.length) :
    (writeAt file pos data).length = max file.length (pos + data.length) := by
  rcases data with _ | ⟨d, ds⟩
  · simp [writeAt]
    omega
  · simp [writeAt]
    omega

theorem writeAt_append (file data : List Nat) :
    writeAt file file.length data = file ++ data := by
  rcases data with _ | ⟨d, ds⟩
  · simp [writeAt]
  · unfold writeAt
    rw [if_neg (by simp)]
    rw [List.take_length, Nat.sub_self, List.drop_eq_nil_of_le (by simp)]
    simp

theorem maxEnd_append (e1 e2 : List Ev) (m : Nat) :
    maxEnd (e1 ++ e2) m = maxEnd e2 (maxEnd e1 m) := by
  simp [maxEnd, List.foldl_append]

theorem maxEnd_nil (m : Nat) : maxEnd [] m = m := rfl

theorem maxEnd_cons (e : Ev) (tl : List Ev) (m : Nat) :
    maxEnd (e :: tl) m = maxEnd tl (max m (evEnd e)) := rfl

theorem writeAt_append_of_eq (file : List Nat) (pos : Nat)
    (data : List Nat) (h : pos = file.length) :
    writeAt file pos data = file ++ data := by
  subst h
  exact writeAt_append file data

theorem flushStart_le (s : St) (seg : Spec) (h : wfSt s) :
    flushStart s seg ≤ s.maximumAddress := by
  obtain ⟨-, hcur, hprev⟩ := h
  unfold flushStart
  split
  · exact hprev
  · exact hcur

theorem appendStep_ok (s s1 : St) (start : Nat) (payload : List Nat)
    (evs : List Ev) (h : appendStep s start payload = .ok (s1, evs)) :
    evs = [] ∧ s1 = { s with lastZ80End := start + payload.length,
                             zbuf := s.zbuf ++ payload }
      ∧ s.zbuf.length + payload.length ≤ 0x2000 := by
  simp only [appendStep] at h
  split at h
  · exact Except.noConfusion h
  · simp only [Except.ok.injEq, Prod.mk.injEq] at h
    obtain ⟨h1, h2⟩ := h
    subst h1; subst h2
    rename_i hgt
    refine ⟨rfl, rfl, ?_⟩
    simpa using Nat.le_of_not_lt hgt

theorem reportStep_fields (cfg : Config) (s : St) (size : Nat) :
    ((reportStep cfg s size).1).file = s.file
      ∧ ((reportStep cfg s size).1).cursor = s.cursor
      ∧ ((reportStep cfg s size).1).maximumAddress = s.maximumAddress
      ∧ ((reportStep cfg s size).1).prev68kStart = s.prev68kStart := by
  unfold reportStep
  split <;> exact ⟨rfl, rfl, rfl, rfl⟩

theorem emit_wf (enc : Enc) (s s1 : St) (size : Nat) (evs : List Ev)
    (hwf : wfSt s) (h : emit enc s = .ok (s1, size, evs)) :
    wfSt s1 ∧ s1.maximumAddress = maxEnd evs s.maximumAddress
      ∧ s.maximumAddress ≤ s1.maximumAddress := by
  obtain ⟨hlen, hcur, hprev⟩ := hwf
  cases hc : s.current with
  | none =>
    rw [emit_none enc s hc] at h
    simp only [Except.ok.injEq, Prod.mk.injEq] at h
    obtain ⟨h1, _, h3⟩ := h
    subst h1; subst h3
    refine ⟨⟨hlen, hcur, hprev⟩, ?_, le_refl _⟩
    simp only [maxEnd, evEnd, List.foldl_cons, List.foldl_nil]
    omega
  | some seg =>
    simp only [emit, hc] at h
    split at h
    · exact Except.noConfusion h
    · simp only [Except.ok.injEq, Prod.mk.injEq] at h
      obtain ⟨h1, _, h3⟩ := h
      subst h1; subst h3
      have hfs := flushStart_le s seg ⟨hlen, hcur, hprev⟩
      have hwl := writeAt_length s.file (flushStart s seg)
        (codecOutput enc seg.compression s.zbuf) (by omega)
      refine ⟨⟨?_, ?_, ?_⟩, ?_, ?_⟩
      · simp only [flushedState]
        rw [hwl]
        omega
      · simp only [flushedState]
        omega
      · simp only [flushedState]
        omega
      · simp only [flushedState, maxEnd, evEnd, List.foldl_cons,
          List.foldl_nil]
      · simp only [flushedState]
        omega

theorem writePlain_wf (cfg : Config) (s : St) (start : Nat)
    (payload : List Nat) (hwf : wfSt s) :
    wfSt (writePlain cfg s start payload).1
      ∧ (writePlain cfg s start payload).1.maximumAddress
        = max s.maximumAddress (start + payload.length) := by
  obtain ⟨hlen, hcur, hprev⟩ := hwf
  unfold writePlain
  split
  case isTrue hgt =>
    simp only [decide_eq_true_eq] at hgt
    have hw1 := writeAt_length s.file s.maximumAddress
      (List.replicate (start - s.maximumAddress) (cfg.paddingValue % 256))
      (by omega)
    have hpadlen : (padTo cfg s start).file.length = start := by
      simp only [padTo]
      rw [hw1]
      simp only [List.length_replicate]
      omega
    have hw2 := writeAt_length (padTo cfg s start).file start payload
      (by omega)
    refine ⟨⟨?_, ?_, ?_⟩, ?_⟩ <;>
      simp only [copySeg, padTo] at * <;>
      first
        | (rw [hw2]; omega)
        | omega
  case isFalse hgt =>
    simp only [decide_eq_true_eq, Nat.not_lt] at hgt
    have hw2 := writeAt_length s.file start payload (by omega)
    refine ⟨⟨?_, ?_, ?_⟩, ?_⟩ <;>
      simp only [copySeg] at * <;>
      first
        | (rw [hw2]; omega)
        | omega

/-- The verbatim-write padding content: when the segment starts past the
high-water mark and the file is exactly `maximum_address` bytes long,
the write appends exactly `start - maximum_address` padding bytes and
then the payload. -/
theorem writePlain_pad_content (cfg : Config) (s : St) (start : Nat)
    (payload : List Nat) (hlen : s.file.length = s.maximumAddress)
    (hgt : s.maximumAddress < start) :
    (writePlain cfg s start payload).1.file
      = s.file ++ List.replicate (start - s.maximumAddress)
          (cfg.paddingValue % 256) ++ payload := by
  unfold writePlain
  rw [if_pos (by simpa using hgt)]
  have h1 : (padTo cfg s start).file
      = s.file ++ List.replicate (start - s.maximumAddress)
          (cfg.paddingValue % 256) := by
    simp only [padTo, ← hlen]
    rw [writeAt_append]
  have h2 : (padTo cfg s start).file.length = start := by
    rw [h1]
    simp only [List.length_append, List.length_replicate]
    omega
  simp only [copySeg]
  rw [writeAt_append_of_eq _ _ _ h2.symm, h1]

theorem processSegment_wf (cfg : Config) (enc : Enc) (s : St) (f a : Nat)
    (p : List Nat) (s1 : St) (evs : List Ev) (hwf : wfSt s)
    (h : processSegment cfg enc s f a p = .ok (s1, evs)) :
    wfSt s1 ∧ s1.maximumAddress = maxEnd evs s.maximumAddress
      ∧ s.maximumAddress ≤ s1.maximumAddress := by
  unfold processSegment at h
  split at h
  case isTrue helig =>
    unfold runStep at h
    split at h
    case isTrue hcont =>
      obtain ⟨hevs, hst, -⟩ := appendStep_ok _ _ _ _ _ h
      subst hevs; subst hst
      obtain ⟨hlen, hcur, hprev⟩ := hwf
      exact ⟨⟨hlen, hcur, hprev⟩, rfl, le_refl _⟩
    case isFalse hcont =>
      cases hemit : emit enc s with
      | error e => simp only [hemit] at h; exact Except.noConfusion h
      | ok v =>
        obtain ⟨s2, sz, evs0⟩ := v
        simp only [hemit] at h
        obtain ⟨hwf2, hmax2, hle2⟩ := emit_wf enc s s2 sz evs0 hwf hemit
        cases happ : appendStep (openRun cfg s2 f a) a p with
        | error e =>
          simp only [happ] at h
          exact Except.noConfusion h
        | ok w =>
          obtain ⟨s3, evs2⟩ := w
          simp only [happ] at h
          obtain ⟨hevs2, hst3, -⟩ := appendStep_ok _ _ _ _ _ happ
          subst hevs2; subst hst3
          simp only [Except.ok.injEq, Prod.mk.injEq] at h
          obtain ⟨h1, h2⟩ := h
          subst h1; subst h2
          obtain ⟨hlen2, hcur2, hprev2⟩ := hwf2
          refine ⟨⟨hlen2, hcur2, hprev2⟩, ?_, hle2⟩
          rw [maxEnd_append, maxEnd_append, maxEnd_nil, maxEnd_cons,
            maxEnd_nil]
          simp only [openRun, evEnd]
          omega
  case isFalse helig =>
    unfold plainStep at h
    cases hc : s.current with
    | none =>
      rw [hc] at h
      simp only [Except.ok.injEq] at h
      have h1 : (writePlain cfg s a p).1 = s1 := by rw [h]
      have h2 : (writePlain cfg s a p).2 = evs := by rw [h]
      rw [writePlain_evs] at h2
      subst h2
      obtain ⟨hwf3, hmax3⟩ := writePlain_wf cfg s a p hwf
      rw [h1] at hwf3 hmax3
      refine ⟨hwf3, ?_, ?_⟩
      · rw [hmax3]
        simp [maxEnd, evEnd]
      · rw [hmax3]
        exact le_max_left _ _
    | some seg =>
      rw [hc] at h
      cases hemit : emit enc s with
      | error e => simp only [hemit] at h; exact Except.noConfusion h
      | ok v =>
        obtain ⟨s2, sz, evs0⟩ := v
        simp only [hemit] at h
        obtain ⟨hwf2, hmax2, hle2⟩ := emit_wf enc s s2 sz evs0 hwf hemit
        split at h
        · exact Except.noConfusion h
        · simp only [Except.ok.injEq, Prod.mk.injEq] at h
          obtain ⟨h1, h2⟩ := h
          obtain ⟨hrf, hrc, hrm, hrp⟩ := reportStep_fields cfg s2 sz
          have hwfr : wfSt (reportStep cfg s2 sz).1 := by
            obtain ⟨hl2, hc2, hp2⟩ := hwf2
            exact ⟨by rw [hrf, hrm]; exact hl2, by rw [hrc, hrm]; exact hc2,
              by rw [hrp, hrm]; exact hp2⟩
          obtain ⟨hwf3, hmax3⟩ :=
            writePlain_wf cfg (reportStep cfg s2 sz).1 a p hwfr
          rw [h1] at hwf3 hmax3
          obtain ⟨x, y, hevs0⟩ := (emit_shape enc s s2 sz evs0 hemit).2
          refine ⟨hwf3, ?_, ?_⟩
          · rw [writePlain_evs] at h2
            subst h2
            rw [maxEnd_append, maxEnd_append]
            rcases reportStep_evs cfg s2 sz with hr | hr <;> rw [hr] <;>
              simp only [maxEnd_nil, maxEnd_cons, evEnd] <;>
              rw [hmax3, hrm] <;>
              omega
          · rw [hmax3, hrm]
            omega

theorem processRecords_wf (cfg : Config) (enc : Enc) (recs : List Rec) :
    ∀ (s s1 : St) (evs : List Ev), wfSt s →
      processRecords cfg enc recs s = .ok (s1, evs) →
      wfSt s1 ∧ s1.maximumAddress = maxEnd evs s.maximumAddress
        ∧ s.maximumAddress ≤ s1.maximumAddress := by
  induction recs with
  | nil =>
    intro s s1 evs hwf h
    simp only [processRecords] at h
    cases hemit : emit enc s with
    | error e => simp only [hemit] at h; exact Except.noConfusion h
    | ok v =>
      obtain ⟨s2, sz, evs0⟩ := v
      simp only [hemit] at h
      simp only [Except.ok.injEq, Prod.mk.injEq] at h
      obtain ⟨h1, h2⟩ := h
      subst h1; subst h2
      exact emit_wf enc s _ sz _ hwf hemit
  | cons r rest ih =>
    intro s s1 evs hwf h
    cases r with
    | entry addr => exact ih s s1 evs hwf h
    | seg f a p =>
      simp only [processRecords] at h
      cases hps : processSegment cfg enc s f a p with
      | error e => simp only [hps] at h; exact Except.noConfusion h
      | ok v =>
        obtain ⟨s2, evs1⟩ := v
        simp only [hps] at h
        cases hpr : processRecords cfg enc rest s2 with
        | error e => simp only [hps, hpr] at h; exact Except.noConfusion h
        | ok w =>
          obtain ⟨s3, evs2⟩ := w
          simp only [hpr] at h
          simp only [Except.ok.injEq, Prod.mk.injEq] at h
          obtain ⟨h1, h2⟩ := h
          subst h1; subst h2
          obtain ⟨hwf2, hmax2, hle2⟩ :=
            processSegment_wf cfg enc s f a p s2 evs1 hwf hps
          obtain ⟨hwf3, hmax3, hle3⟩ := ih s2 s3 evs2 hwf2 hpr
          refine ⟨hwf3, ?_, le_trans hle2 hle3⟩
          rw [maxEnd_append, hmax3, hmax2]

/-! ## Claim C2 -/

/-- C2: over any complete processing run of the registry variant,
(1) the final output file's length equals the final `maximum_address`,
which is the running maximum of the end addresses of all writes
(verbatim or compressed) in the trace; (2) `maximum_address` — the
high-water mark — never decreases; (3) when a verbatim segment starts
past the high-water mark the output gains exactly
`start_address - maximum_address` bytes of the configured padding value
filling `[maximum_address, start_address)` followed by the segment's
bytes; (4) after a verbatim write the high-water mark is
`max(old, start_address + length)`. -/
theorem claim2_high_water_and_padding :
    (∀ (cfg : Config) (enc : Enc) (recs : List Rec) (s1 : St)
        (evs : List Ev),
        processRecords cfg enc recs initialState = .ok (s1, evs) →
        s1.file.length = s1.maximumAddress
          ∧ s1.maximumAddress = maxEnd evs 0)
      ∧ (∀ (cfg : Config) (enc : Enc) (recs : List Rec) (s s1 : St)
          (evs : List Ev), wfSt s →
          processRecords cfg enc recs s = .ok (s1, evs) →
          s.maximumAddress ≤ s1.maximumAddress)
      ∧ (∀ (cfg : Config) (s : St) (start : Nat) (payload : List Nat),
          s.file.length = s.maximumAddress → s.maximumAddress < start →
          (writePlain cfg s start payload).1.file
            = s.file ++ List.replicate (start - s.maximumAddress)
                (cfg.paddingValue % 256) ++ payload)
      ∧ (∀ (cfg : Config) (s : St) (start : Nat) (payload : List Nat),
          wfSt s →
          (writePlain cfg s start payload).1.maximumAddress
            = max s.maximumAddress (start + payload.length)) := by
  refine ⟨?_, ?_, writePlain_pad_content, ?_⟩
  · intro cfg enc recs s1 evs h
    have hw0 : wfSt initialState := ⟨rfl, le_refl _, le_refl _⟩
    obtain ⟨⟨hl, -, -⟩, hm, -⟩ :=
      processRecords_wf cfg enc recs initialState s1 evs hw0 h
    exact ⟨hl, hm⟩
  · intro cfg enc recs s s1 evs hwf h
    exact (processRecords_wf cfg enc recs s s1 evs hwf h).2.2
  · intro cfg s start payload hwf
    exact (writePlain_wf cfg s start payload hwf).2

theorem claim2_witness :
    (stC1.file.length = stC1.maximumAddress
      ∧ stC1.maximumAddress = maxEnd evsC1 0)
    ∧ initialState.maximumAddress ≤ stC1.maximumAddress
    ∧ (writePlain cfgC1 initialState 4 [9]).1.file
        = initialState.file ++ List.replicate 4 0 ++ [9]
    ∧ (writePlain cfgC1 initialState 4 [9]).1.maximumAddress
        = max initialState.maximumAddress 5 :=
  ⟨claim2_high_water_and_padding.1 cfgC1 encId recsC1 stC1 evsC1 rfl,
   claim2_high_water_and_padding.2.1 cfgC1 encId recsC1 initialState stC1
     evsC1 ⟨rfl, le_refl _, le_refl _⟩ rfl,
   claim2_high_water_and_padding.2.2.1 cfgC1 initialState 4 [9] rfl
     (by decide),
   claim2_high_water_and_padding.2.2.2 cfgC1 initialState 4 [9]
     ⟨rfl, le_refl _, le_refl _⟩⟩

/-! ## Claim C7 -/

/-- C7: when a run is flushed (lines 174-178 and 235-248): under the
`Before` policy the codec's write position is the previous plain
segment's start (the cursor is first moved back there); under `After`
it is the current cursor; the compressed span is written at that
position; the returned size is the cursor position after the codec
minus the one before it (equivalently, the span's length); and the new
high-water mark is `max` of the old one and the new cursor. -/
theorem claim7_flush_mechanics (enc : Enc) (s : St) (seg : Spec)
    (s1 : St) (size : Nat) (evs : List Ev) (hc : s.current = some seg)
    (h : emit enc s = .ok (s1, size, evs)) :
    (seg.type = SegType.before → flushStart s seg = s.prev68kStart)
      ∧ (seg.type = SegType.after → flushStart s seg = s.cursor)
      ∧ s1.cursor = flushStart s seg
          + (codecOutput enc seg.compression s.zbuf).length
      ∧ size = s1.cursor - flushStart s seg
      ∧ s1.file = writeAt s.file (flushStart s seg)
          (codecOutput enc seg.compression s.zbuf)
      ∧ s1.maximumAddress = max s.maximumAddress s1.cursor := by
  simp only [emit, hc] at h
  split at h
  · exact Except.noConfusion h
  · simp only [Except.ok.injEq, Prod.mk.injEq] at h
    obtain ⟨h1, h2, -⟩ := h
    subst h1
    refine ⟨?_, ?_, rfl, ?_, rfl, rfl⟩
    · intro ht
      simp [flushStart, ht]
    · intro ht
      simp [flushStart, ht]
    · rw [← h2]
      rfl

theorem claim7_witness :
    (specC7.type = SegType.before → flushStart stC7 specC7
        = stC7.prev68kStart)
      ∧ (specC7.type = SegType.after → flushStart stC7 specC7
          = stC7.cursor)
      ∧ stC7out.cursor = flushStart stC7 specC7
          + (codecOutput encId specC7.compression stC7.zbuf).length
      ∧ 2 = stC7out.cursor - flushStart stC7 specC7
      ∧ stC7out.file = writeAt stC7.file (flushStart stC7 specC7)
          (codecOutput encId specC7.compression stC7.zbuf)
      ∧ stC7out.maximumAddress = max stC7.maximumAddress stC7out.cursor :=
  claim7_flush_mechanics encId stC7 specC7 stC7out 2
    [.flushed true 0 2] rfl rfl

/-! ## Claim C4 -/

theorem emit_reports (enc : Enc) (s s1 : St) (size : Nat) (evs : List Ev)
    (h : emit enc s = .ok (s1, size, evs)) : s1.reports = s.reports := by
  cases hc : s.current with
  | none =>
    rw [emit_none enc s hc] at h
    simp only [Except.ok.injEq, Prod.mk.injEq] at h
    rw [← h.1]
  | some seg =>
    simp only [emit, hc] at h
    split at h
    · exact Except.noConfusion h
    · simp only [Except.ok.injEq, Prod.mk.injEq] at h
      rw [← h.1]
      rfl

theorem writePlain_reports (cfg : Config) (s : St) (start : Nat)
    (payload : List Nat) :
    ((writePlain cfg s start payload).1).reports = s.reports := by
  unfold writePlain copySeg
  split <;> rfl

theorem reportStep_reports_configured (cfg : Config) (s : St) (size : Nat)
    (hh : cfg.headerConfigured = true) :
    ((reportStep cfg s size).1).reports
      = s.reports ++ [("comp_z80_size", size)] := by
  unfold reportStep
  rw [if_pos hh]

theorem reportStep_reports_absent (cfg : Config) (s : St) (size : Nat)
    (hh : cfg.headerConfigured = false) :
    ((reportStep cfg s size).1).reports = s.reports := by
  unfold reportStep
  rw [if_neg (by simp [hh])]

/-- C4 counterexample: header feedback is configured and one run is
flushed — by the end-of-stream marker — yet no report at all is
written; moreover the report written in the verbatim-flush path uses
the fixed token `comp_z80_size`, not the region's label (`"ZSZ"`
here). -/
theorem claim4_counterexample :
    processRecords cfgC1 encId [.seg 0x51 0 [1, 2]] initialState
        = .ok (stC4,
            [.flushed false 0 0, .opened 0, .flushed true 0 2])
      ∧ cfgC1.headerConfigured = true
      ∧ realFlushCount [.flushed false 0 0, .opened 0, .flushed true 0 2]
          = 1
      ∧ stC4.reports = []
      ∧ specC1.constant = "ZSZ"
      ∧ stC1.reports = [("comp_z80_size", 2)] :=
  ⟨rfl, rfl, rfl, rfl, rfl, rfl⟩

/-- C4 (amended): a size report is emitted exactly when a run is
flushed by the arrival of a non-qualifying (verbatim) segment and a
header file is configured; it is then exactly one report, carrying the
fixed token `comp_z80_size` and the measured size — not the region's
label.  Runs flushed by the end-of-stream marker, or by the opening of
a new non-contiguous run, produce no report. -/
theorem claim4_report_per_verbatim_flush :
    (∀ (cfg : Config) (enc : Enc) (s : St) (seg : Spec) (f a : Nat)
        (p : List Nat) (s2 : St) (sz : Nat) (evs0 : List Ev) (s1 : St)
        (evs : List Ev),
        (matchingSpec cfg f a).isSome = false → isCont s f a = false →
        s.current = some seg → cfg.headerConfigured = true →
        emit enc s = .ok (s2, sz, evs0) →
        processSegment cfg enc s f a p = .ok (s1, evs) →
        s1.reports = s.reports ++ [("comp_z80_size", sz)])
      ∧ (∀ (cfg : Config) (enc : Enc) (s : St) (seg : Spec) (f a : Nat)
          (p : List Nat) (s2 : St) (sz : Nat) (evs0 : List Ev) (s1 : St)
          (evs : List Ev),
          (matchingSpec cfg f a).isSome = false → isCont s f a = false →
          s.current = some seg → cfg.headerConfigured = false →
          emit enc s = .ok (s2, sz, evs0) →
          processSegment cfg enc s f a p = .ok (s1, evs) →
          s1.reports = s.reports)
      ∧ (∀ (cfg : Config) (enc : Enc) (s s1 : St) (evs : List Ev),
          processRecords cfg enc ([] : List Rec) s = .ok (s1, evs) →
          s1.reports = s.reports)
      ∧ (∀ (cfg : Config) (enc : Enc) (s : St) (f a : Nat) (p : List Nat)
          (s1 : St) (evs : List Ev),
          ((matchingSpec cfg f a).isSome || isCont s f a) = true →
          processSegment cfg enc s f a p = .ok (s1, evs) →
          s1.reports = s.reports) := by
  have hplain : ∀ (cfg : Config) (enc : Enc) (s : St) (seg : Spec)
      (f a : Nat) (p : List Nat) (s2 : St) (sz : Nat) (evs0 : List Ev)
      (s1 : St) (evs : List Ev),
      (matchingSpec cfg f a).isSome = false → isCont s f a = false →
      s.current = some seg → emit enc s = .ok (s2, sz, evs0) →
      processSegment cfg enc s f a p = .ok (s1, evs) →
      s1.reports = ((reportStep cfg s2 sz).1).reports := by
    intro cfg enc s seg f a p s2 sz evs0 s1 evs hmat hcont hc hemit h
    unfold processSegment at h
    rw [if_neg (by simp [hmat, hcont])] at h
    unfold plainStep at h
    rw [hc] at h
    simp only [hemit] at h
    split at h
    · exact Except.noConfusion h
    · simp only [Except.ok.injEq, Prod.mk.injEq] at h
      obtain ⟨h1, -⟩ := h
      rw [← h1, writePlain_reports]
  refine ⟨?_, ?_, ?_, ?_⟩
  · intro cfg enc s seg f a p s2 sz evs0 s1 evs hmat hcont hc hh hemit h
    rw [hplain cfg enc s seg f a p s2 sz evs0 s1 evs hmat hcont hc hemit h,
      reportStep_reports_configured cfg s2 sz hh,
      emit_reports enc s s2 sz evs0 hemit]
  · intro cfg enc s seg f a p s2 sz evs0 s1 evs hmat hcont hc hh hemit h
    rw [hplain cfg enc s seg f a p s2 sz evs0 s1 evs hmat hcont hc hemit h,
      reportStep_reports_absent cfg s2 sz hh,
      emit_reports enc s s2 sz evs0 hemit]
  · intro cfg enc s s1 evs h
    simp only [processRecords] at h
    cases hemit : emit enc s with
    | error e => simp only [hemit] at h; exact Except.noConfusion h
    | ok v =>
      obtain ⟨s2, sz, evs0⟩ := v
      simp only [hemit] at h
      simp only [Except.ok.injEq, Prod.mk.injEq] at h
      obtain ⟨h1, -⟩ := h
      rw [← h1]
      exact emit_reports enc s s2 sz evs0 hemit
  · intro cfg enc s f a p s1 evs helig h
    unfold processSegment at h
    rw [if_pos helig] at h
    unfold runStep at h
    split at h
    case isTrue hcont =>
      obtain ⟨-, hst, -⟩ := appendStep_ok _ _ _ _ _ h
      subst hst
      rfl
    case isFalse hcont =>
      cases hemit : emit enc s with
      | error e => simp only [hemit] at h; exact Except.noConfusion h
      | ok v =>
        obtain ⟨s2, sz, evs0⟩ := v
        simp only [hemit] at h
        cases happ : appendStep (openRun cfg s2 f a) a p with
        | error e =>
          simp only [happ] at h
          exact Except.noConfusion h
        | ok w =>
          obtain ⟨s3, evs2⟩ := w
          simp only [happ] at h
          obtain ⟨-, hst3, -⟩ := appendStep_ok _ _ _ _ _ happ
          subst hst3
          simp only [Except.ok.injEq, Prod.mk.injEq] at h
          obtain ⟨h1, -⟩ := h
          rw [← h1]
          exact emit_reports enc s s2 sz evs0 hemit

theorem claim4_witness :
    stC1.reports = stC6.reports ++ [("comp_z80_size", 2)]
      ∧ stC1.reports = stC1.reports
      ∧ stC6.reports = initialState.reports :=
  ⟨claim4_report_per_verbatim_flush.1 cfgC1 encId stC6 specC1 0 0x10
      [3, 4] stC6out 2 [.flushed true 0 2] stC1
      [.flushed true 0 2, .reported "comp_z80_size" 2, .wrotePlain 16 18]
      rfl rfl rfl rfl rfl rfl,
   claim4_report_per_verbatim_flush.2.2.1 cfgC1 encId stC1 stC1
      [.flushed false 18 18] rfl,
   claim4_report_per_verbatim_flush.2.2.2 cfgC1 encId initialState 0x51 0
      [1, 2] stC6 [.flushed false 0 0, .opened 0] rfl rfl⟩

/-! ## Claim C8 -/

/-- C8 counterexample: in the registry variant, with NO region spec
registered, a Z80 (0x51) segment at start address 0 is copied verbatim
and no compressible run opens — whereas with a singleton spec with
trigger address 0 registered the very same segment opens a run and is
buffered.  The absence of specs is therefore not equivalent to an
implicit singleton spec at address 0 in this variant. -/
theorem claim8_counterexample :
    processSegment cfgEmpty encId initialState 0x51 0 [1, 2]
        = .ok (stC8e, [.wrotePlain 0 2])
      ∧ stC8e.current = none
      ∧ processSegment cfgC1 encId initialState 0x51 0 [1, 2]
        = .ok (stC6, [.flushed false 0 0, .opened 0])
      ∧ stC6.current.isSome = true :=
  ⟨rfl, rfl, rfl, rfl⟩

/-- C8 (amended): in the registry variant an empty spec registry means
no compressible region at all — a segment processed from a state with
no open run leaves the run closed, whatever its family and address.
The implicit address-0 (and `-c`-address) trigger is the behavior of
the legacy variant, which has no registry: there a Z80 segment at
address 0 is always eligible, and — when it does not continue a
previous run — opens a fresh run whose buffer receives exactly its
payload and whose constant index is 0. -/
theorem claim8_no_spec_no_implicit_region :
    (∀ (cfg : Config) (enc : Enc) (s : St) (f a : Nat) (p : List Nat)
        (s1 : St) (evs : List Ev), cfg.specs = [] → s.current = none →
        processSegment cfg enc s f a p = .ok (s1, evs) →
        s1.current = none)
      ∧ (∀ (cfg : Legacy.Config) (s : Legacy.St),
          Legacy.eligible cfg s 0x51 0 = true)
      ∧ (∀ (cfg : Legacy.Config) (enc : Legacy.Enc) (s : Legacy.St)
          (p : List Nat) (s1 : Legacy.St),
          s.lastWasCompressible = false → s.lastZ80End ≠ 0 →
          Legacy.processSegment cfg enc s 0x51 0 p = .ok s1 →
          s1.lastWasCompressible = true ∧ s1.zbuf = p
            ∧ s1.currentConstant = 0) := by
  refine ⟨?_, ?_, ?_⟩
  · intro cfg enc s f a p s1 evs hspecs hcur h
    have hmat : matchingSpec cfg f a = none := by
      unfold matchingSpec
      rw [hspecs]
      split <;> rfl
    unfold processSegment at h
    rw [if_neg (by simp [hmat, isCont, hcur])] at h
    unfold plainStep at h
    rw [hcur] at h
    simp only [Except.ok.injEq] at h
    have h1 : (writePlain cfg s a p).1 = s1 := by rw [h]
    rw [← h1, writePlain_current, hcur]
  · intro cfg s
    simp [Legacy.eligible]
  · intro cfg enc s p s1 hflag hlast h
    have hemit : Legacy.emit enc cfg s = (s, 0) := by
      simp [Legacy.emit, hflag]
    have hne : (0 != s.lastZ80End) = true := by
      simp only [bne_iff_ne, ne_eq]
      omega
    unfold Legacy.processSegment at h
    rw [if_pos (by simp [Legacy.eligible]), if_pos hne, hemit] at h
    simp only [reduceIte] at h
    split at h
    · exact Except.noConfusion h
    · simp only [Except.ok.injEq] at h
      rw [← h]
      exact ⟨rfl, rfl, rfl⟩

theorem claim8_witness :
    stC8e.current = none
      ∧ Legacy.eligible cfgL Legacy.initialState 0x51 0 = true
      ∧ (stL8.lastWasCompressible = true ∧ stL8.zbuf = [1, 2]
          ∧ stL8.currentConstant = 0) :=
  ⟨claim8_no_spec_no_implicit_region.1 cfgEmpty encId initialState 0x51 0
      [1, 2] stC8e [.wrotePlain 0 2] rfl rfl rfl,
   claim8_no_spec_no_implicit_region.2.1 cfgL Legacy.initialState,
   claim8_no_spec_no_implicit_region.2.2 cfgL encIdL Legacy.initialState
      [1, 2] stL8 rfl (by decide) rfl⟩

/-! ## Claim C9 -/

/-- C9: the framing `EmitCompressedZ80Code` adds around the codecs
(lines 186-214): for authentic Kosinski the emitted span is the
encoder's output padded with zero bytes up to the next 16-byte
boundary, so its length is a multiple of 16 — and consequently the
size a flush of a Kosinski region returns is a multiple of 16; for
authentic Saxman the emitted span is the encoder's output followed by
the single literal byte 0x4E. -/
theorem claim9_codec_framing (enc : Enc) (buf : List Nat) :
    (codecOutput enc .kosinski buf).length % 16 = 0
      ∧ (codecOutput enc .kosinski buf).take (enc .kosinski buf).length
          = enc .kosinski buf
      ∧ (∀ b ∈ (codecOutput enc .kosinski buf).drop
            (enc .kosinski buf).length, b = 0)
      ∧ codecOutput enc .saxman buf = enc .saxman buf ++ [0x4E]
      ∧ (codecOutput enc .saxman buf).getLast? = some 0x4E
      ∧ (∀ (s : St) (seg : Spec) (s1 : St) (size : Nat) (evs : List Ev),
          s.current = some seg → seg.compression = .kosinski →
          s.zbuf = buf → emit enc s = .ok (s1, size, evs) →
          size % 16 = 0) := by
  refine ⟨?_, ?_, ?_, rfl, ?_, ?_⟩
  · show ((enc .kosinski buf) ++ List.replicate
      ((16 - (enc .kosinski buf).length % 16) % 16) 0).length % 16 = 0
    rw [List.length_append, List.length_replicate]
    omega
  · show ((enc .kosinski buf) ++ List.replicate
        ((16 - (enc .kosinski buf).length % 16) % 16) 0).take
        (enc .kosinski buf).length = enc .kosinski buf
    exact List.take_left _ _
  · intro b hb
    rw [show codecOutput enc .kosinski buf = (enc .kosinski buf)
        ++ List.replicate ((16 - (enc .kosinski buf).length % 16) % 16) 0
      from rfl, List.drop_left] at hb
    exact List.eq_of_mem_replicate hb
  · show ((enc .saxman buf) ++ [0x4E]).getLast? = some 0x4E
    simp
  · intro s seg s1 size evs hc hcomp hbuf h
    simp only [emit, hc] at h
    split at h
    · exact Except.noConfusion h
    · simp only [Except.ok.injEq, Prod.mk.injEq] at h
      obtain ⟨-, h2, -⟩ := h
      rw [← h2, Nat.add_sub_cancel_left, hcomp, hbuf]
      show ((enc .kosinski buf) ++ List.replicate
        ((16 - (enc .kosinski buf).length % 16) % 16) 0).length % 16 = 0
      rw [List.length_append, List.length_replicate]
      omega

/-! ## Claim C3 -/

theorem legacy_writePlain_fields (cfg : Legacy.Config) (s : Legacy.St)
    (start : Nat) (payload : List Nat) :
    (Legacy.writePlain cfg s start payload).warnings = s.warnings
      ∧ (Legacy.writePlain cfg s start payload).reports = s.reports := by
  unfold Legacy.writePlain Legacy.copySeg
  split <;> exact ⟨rfl, rfl⟩

/-- C3: detection of compressed output spilling outside its reserved
space.  Strict configuration = the registry variant, where
`NotEnoughSpace` aborts (`longjmp`): under the `Before` policy the
flush itself is fatal as soon as the measured compressed size exceeds
the overlapped segment's length (line 243); under the `After` policy
routing the next verbatim segment is fatal — before that segment is
written — when its start address is below the codec's ending cursor
(line 308).  Permissive configuration = the legacy variant, where
`NotEnoughSpace` merely warns: the same `After` condition appends a
warning, processing continues, and the true measured size is still
reported to the header file (lines 895-917); in skdisasm (`Before`)
mode the size check inside the flush likewise only appends a warning
(line 837). -/
theorem claim3_reserved_space_overflow :
    (∀ (enc : Enc) (s : St) (seg : Spec), s.current = some seg →
        seg.type = SegType.before →
        s.prev68kLen < (codecOutput enc seg.compression s.zbuf).length →
        emit enc s = .error .notEnoughSpace)
      ∧ (∀ (cfg : Config) (enc : Enc) (s : St) (seg : Spec) (f a : Nat)
          (p : List Nat) (s2 : St) (sz : Nat) (evs0 : List Ev),
          (matchingSpec cfg f a).isSome = false → isCont s f a = false →
          s.current = some seg → seg.type = SegType.after →
          emit enc s = .ok (s2, sz, evs0) → a < s2.cursor →
          processSegment cfg enc s f a p = .error .notEnoughSpace)
      ∧ (∀ (cfg : Legacy.Config) (enc : Legacy.Enc) (s s1 : Legacy.St)
          (f a size : Nat) (p : List Nat),
          Legacy.eligible cfg s f a = false → cfg.skdisasm = false →
          Legacy.emit enc cfg s = (s1, size) → size ≠ 0 → a < s1.cursor →
          ∃ s3, Legacy.processSegment cfg enc s f a p = .ok s3
            ∧ s3.warnings = s1.warnings
                ++ [(Legacy.constAt cfg s1.currentConstant, size)]
            ∧ (cfg.headerConfigured = true →
                s3.reports = s1.reports ++ [("comp_z80_size", size)]))
      ∧ (∀ (cfg : Legacy.Config) (enc : Legacy.Enc) (s : Legacy.St),
          cfg.skdisasm = true → s.lastWasCompressible = true →
          s.prev68kLen
            < (Legacy.codecOutput enc cfg.compressionFormat s.zbuf).length →
          ((Legacy.emit enc cfg s).1).warnings
            = s.warnings ++ [(Legacy.constAt cfg s.currentConstant,
                (Legacy.codecOutput enc cfg.compressionFormat
                  s.zbuf).length)]
            ∧ (Legacy.emit enc cfg s).2
              = (Legacy.codecOutput enc cfg.compressionFormat
                  s.zbuf).length) := by
  refine ⟨?_, ?_, ?_, ?_⟩
  · intro enc s seg hc ht hbig
    simp only [emit, hc]
    have hcond : (seg.type == SegType.before && decide
        (flushStart s seg
            + (codecOutput enc seg.compression s.zbuf).length
            - flushStart s seg > s.prev68kLen)) = true := by
      simp only [ht, Bool.and_eq_true, beq_iff_eq, decide_eq_true_eq]
      exact ⟨trivial, by omega⟩
    rw [if_pos hcond]
  · intro cfg enc s seg f a p s2 sz evs0 hmat hcont hc ht hemit hlt
    unfold processSegment
    rw [if_neg (by simp [hmat, hcont])]
    unfold plainStep
    rw [hc]
    simp only [hemit]
    rw [if_pos (by simp [ht, hlt])]
  · intro cfg enc s s1 f a size p hel hsk hemit hsz hlt
    have hstep : Legacy.processSegment cfg enc s f a p
        = .ok (Legacy.writePlain cfg (Legacy.postFlush cfg s1 a size)
            a p) := by
      unfold Legacy.processSegment
      rw [if_neg (by simp [hel]), hemit]
    have hw : (Legacy.postFlush cfg s1 a size).warnings
        = s1.warnings ++ [(Legacy.constAt cfg s1.currentConstant, size)] := by
      unfold Legacy.postFlush
      rw [if_pos (show (size != 0) = true by simp [hsz])]
      rw [if_pos (show (!cfg.skdisasm && decide (a < s1.cursor)) = true by
        simp [hsk, hlt])]
      split <;> rfl
    have hr : cfg.headerConfigured = true →
        (Legacy.postFlush cfg s1 a size).reports
          = s1.reports ++ [("comp_z80_size", size)] := by
      intro hh
      unfold Legacy.postFlush
      rw [if_pos (show (size != 0) = true by simp [hsz]), if_pos hh]
      split <;> rfl
    refine ⟨Legacy.writePlain cfg (Legacy.postFlush cfg s1 a size) a p,
      hstep, ?_, ?_⟩
    · rw [(legacy_writePlain_fields cfg _ a p).1, hw]
    · intro hh
      rw [(legacy_writePlain_fields cfg _ a p).2, hr hh]
  · intro cfg enc s hsk hflag hbig
    simp only [Legacy.emit, hflag, hsk, if_true, Bool.true_and,
      Nat.add_sub_cancel_left]
    rw [if_pos (by simp only [decide_eq_true_eq]; omega)]
    constructor <;> trivial

theorem claim3_witness :
    emit encId { stC7 with prev68kLen := 1 } = .error .notEnoughSpace
      ∧ processSegment cfgC1 encId stC6 0 1 [5] = .error .notEnoughSpace
      ∧ (∃ s3, Legacy.processSegment cfgL encIdL stL 0 1 [5] = .ok s3
          ∧ s3.warnings = stLout.warnings
              ++ [(Legacy.constAt cfgL stLout.currentConstant, 2)]
          ∧ (cfgL.headerConfigured = true →
              s3.reports = stLout.reports ++ [("comp_z80_size", 2)]))
      ∧ (((Legacy.emit encIdL cfgL4 stL4).1).warnings
          = stL4.warnings ++ [(Legacy.constAt cfgL4 stL4.currentConstant,
              (Legacy.codecOutput encIdL cfgL4.compressionFormat
                stL4.zbuf).length)]
          ∧ (Legacy.emit encIdL cfgL4 stL4).2
            = (Legacy.codecOutput encIdL cfgL4.compressionFormat
                stL4.zbuf).length) :=
  ⟨claim3_reserved_space_overflow.1 encId { stC7 with prev68kLen := 1 }
      specC7 rfl rfl (by decide),
   claim3_reserved_space_overflow.2.1 cfgC1 encId stC6 specC1 0 1 [5]
      stC6out 2 [.flushed true 0 2] rfl rfl rfl rfl rfl (by decide),
   claim3_reserved_space_overflow.2.2.1 cfgL encIdL stL stLout 0 1 2 [5]
      rfl rfl rfl (by decide) (by decide),
   claim3_reserved_space_overflow.2.2.2 cfgL4 encIdL stL4 rfl rfl
      (by decide)⟩

/-! ## Claim C5 -/

/-- C5: the record parser's classification by header byte
(`ProcessRecords`, lines 369-414): `0x00` is the end-of-stream
sentinel; `0x80` is an entry point whose 4-byte little-endian address
is consumed and has no effect on processing (the router treats entry
records as no-ops); `0x81` is an extended segment carrying a
processor-family byte, an ignored identifier byte and a granularity
byte — granularity 1 proceeds to the segment framing with that family,
any other granularity aborts the whole conversion (also at the
record-loop level, `parseAllAux`); any header below `0x80` is a legacy
segment whose header byte doubles as the processor family; any other
header at or above `0x80` is a fatal parse error; and the segment
framing reads a 4-byte start address and a 2-byte length. -/
theorem claim5_record_classification :
    (∀ r : List Nat, parseRecord (0 :: r) = .ok .endOfStream r)
      ∧ (∀ (b0 b1 b2 b3 : Nat) (r : List Nat),
          parseRecord (0x80 :: b0 :: b1 :: b2 :: b3 :: r)
            = .ok (.entryPoint
                (b0 ||| b1 <<< 8 ||| b2 <<< 16 ||| b3 <<< 24)) r)
      ∧ (∀ (cfg : Config) (enc : Enc) (recs : List Rec) (s : St)
          (addr : Nat),
          processRecords cfg enc (.entry addr :: recs) s
            = processRecords cfg enc recs s)
      ∧ (∀ (fam sid g : Nat) (r : List Nat), g ≠ 1 →
          parseRecord (0x81 :: fam :: sid :: g :: r)
            = .fatal (.granularityUnsupported g))
      ∧ (∀ (fuel fam sid g : Nat) (r : List Nat), g ≠ 1 →
          parseAllAux (fuel + 1) (0x81 :: fam :: sid :: g :: r)
            = .error (.granularityUnsupported g))
      ∧ (∀ (fam sid : Nat) (r : List Nat),
          parseRecord (0x81 :: fam :: sid :: 1 :: r)
            = parseSegmentBody fam r)
      ∧ (∀ (h : Nat) (r : List Nat), h ≠ 0 → h < 0x80 →
          parseRecord (h :: r) = parseSegmentBody h r)
      ∧ (∀ (h : Nat) (r : List Nat), 0x80 < h → h ≠ 0x81 →
          parseRecord (h :: r) = .fatal (.unrecognisedHeader h))
      ∧ (∀ (fam b0 b1 b2 b3 l0 l1 : Nat) (r : List Nat),
          parseSegmentBody fam (b0 :: b1 :: b2 :: b3 :: l0 :: l1 :: r)
            = .ok (.segment fam
                (b0 ||| b1 <<< 8 ||| b2 <<< 16 ||| b3 <<< 24)
                (l0 ||| l1 <<< 8)) r) := by
  refine ⟨?_, ?_, ?_, ?_, ?_, ?_, ?_, ?_, ?_⟩
  · intro r
    rfl
  · intro b0 b1 b2 b3 r
    simp [parseRecord, readInteger, readIntegerAux, Nat.zero_or,
      Nat.shiftLeft_zero]
  · intro cfg enc recs s addr
    rfl
  · intro fam sid g r hg
    simp [parseRecord, hg]
  · intro fuel fam sid g r hg
    simp [parseAllAux, parseRecord, hg]
  · intro fam sid r
    rfl
  · intro h r h0 h80
    simp only [parseRecord]
    rw [if_neg (by simp [h0]), if_neg (by simp; omega),
      if_neg (by simp; omega), if_neg (by omega)]
  · intro h r hgt hne
    simp only [parseRecord]
    rw [if_neg (by simp; omega), if_neg (by simp; omega),
      if_neg (by simp [hne]), if_pos (by omega)]
  · intro fam b0 b1 b2 b3 l0 l1 r
    simp [parseSegmentBody, readInteger, readIntegerAux, Nat.zero_or,
      Nat.shiftLeft_zero]

theorem claim5_witness :
    parseRecord [0x81, 0x51, 0, 3, 9] = .fatal (.granularityUnsupported 3)
      ∧ parseAllAux 5 [0x81, 0x51, 0, 3, 9]
          = .error (.granularityUnsupported 3)
      ∧ parseRecord [0x42, 1, 0, 0, 0, 2, 0, 7, 7]
          = parseSegmentBody 0x42 [1, 0, 0, 0, 2, 0, 7, 7]
      ∧ parseRecord [0x90, 1, 2] = .fatal (.unrecognisedHeader 0x90) :=
  ⟨claim5_record_classification.2.2.2.1 0x51 0 3 [9] (by decide),
   claim5_record_classification.2.2.2.2.1 4 0x51 0 3 [9] (by decide),
   claim5_record_classification.2.2.2.2.2.2.1 0x42 [1, 0, 0, 0, 2, 0, 7, 7]
     (by decide) (by decide),
   claim5_record_classification.2.2.2.2.2.2.2.1 0x90 [1, 2] (by decide)
     (by decide)⟩

/-! ## Claim C6 -/

theorem emit_zbuf (enc : Enc) (s s1 : St) (size : Nat) (evs : List Ev)
    (h : emit enc s = .ok (s1, size, evs)) : s1.zbuf = s.zbuf := by
  cases hc : s.current with
  | none =>
    rw [emit_none enc s hc] at h
    simp only [Except.ok.injEq, Prod.mk.injEq] at h
    rw [← h.1]
  | some seg =>
    simp only [emit, hc] at h
    split at h
    · exact Except.noConfusion h
    · simp only [Except.ok.injEq, Prod.mk.injEq] at h
      rw [← h.1]
      rfl

theorem writePlain_zbuf (cfg : Config) (s : St) (start : Nat)
    (payload : List Nat) :
    ((writePlain cfg s start payload).1).zbuf = s.zbuf := by
  unfold writePlain copySeg
  split <;> rfl

theorem reportStep_zbuf (cfg : Config) (s : St) (size : Nat) :
    ((reportStep cfg s size).1).zbuf = s.zbuf := by
  unfold reportStep
  split <;> rfl

/-- Routing one segment keeps the run buffer within its 8 KiB
capacity. -/
theorem processSegment_zbuf_bound (cfg : Config) (enc : Enc) (s : St)
    (f a : Nat) (p : List Nat) (s1 : St) (evs : List Ev)
    (hbound : s.zbuf.length ≤ 0x2000)
    (h : processSegment cfg enc s f a p = .ok (s1, evs)) :
    s1.zbuf.length ≤ 0x2000 := by
  unfold processSegment at h
  split at h
  case isTrue helig =>
    unfold runStep at h
    split at h
    case isTrue hcont =>
      obtain ⟨-, hst, hle⟩ := appendStep_ok _ _ _ _ _ h
      subst hst
      simpa using hle
    case isFalse hcont =>
      cases hemit : emit enc s with
      | error e => simp only [hemit] at h; exact Except.noConfusion h
      | ok v =>
        obtain ⟨s2, sz, evs0⟩ := v
        simp only [hemit] at h
        cases happ : appendStep (openRun cfg s2 f a) a p with
        | error e =>
          simp only [happ] at h
          exact Except.noConfusion h
        | ok w =>
          obtain ⟨s3, evs2⟩ := w
          simp only [happ] at h
          obtain ⟨-, hst3, hle3⟩ := appendStep_ok _ _ _ _ _ happ
          subst hst3
          simp only [Except.ok.injEq, Prod.mk.injEq] at h
          obtain ⟨h1, -⟩ := h
          rw [← h1]
          simp only [openRun, List.length_nil, List.nil_append] at hle3 ⊢
          simpa using hle3
  case isFalse helig =>
    unfold plainStep at h
    cases hc : s.current with
    | none =>
      rw [hc] at h
      simp only [Except.ok.injEq] at h
      have h1 : (writePlain cfg s a p).1 = s1 := by rw [h]
      rw [← h1, writePlain_zbuf]
      exact hbound
    | some seg =>
      rw [hc] at h
      cases hemit : emit enc s with
      | error e => simp only [hemit] at h; exact Except.noConfusion h
      | ok v =>
        obtain ⟨s2, sz, evs0⟩ := v
        simp only [hemit] at h
        split at h
        · exact Except.noConfusion h
        · simp only [Except.ok.injEq, Prod.mk.injEq] at h
          obtain ⟨h1, -⟩ := h
          rw [← h1, writePlain_zbuf, reportStep_zbuf,
            emit_zbuf enc s s2 sz evs0 hemit]
          exact hbound

theorem processRecords_zbuf_bound (cfg : Config) (enc : Enc)
    (recs : List Rec) :
    ∀ (s s1 : St) (evs : List Ev), s.zbuf.length ≤ 0x2000 →
      processRecords cfg enc recs s = .ok (s1, evs) →
      s1.zbuf.length ≤ 0x2000 := by
  induction recs with
  | nil =>
    intro s s1 evs hbound h
    simp only [processRecords] at h
    cases hemit : emit enc s with
    | error e => simp only [hemit] at h; exact Except.noConfusion h
    | ok v =>
      obtain ⟨s2, sz, evs0⟩ := v
      simp only [hemit] at h
      simp only [Except.ok.injEq, Prod.mk.injEq] at h
      obtain ⟨h1, -⟩ := h
      rw [← h1, emit_zbuf enc s s2 sz evs0 hemit]
      exact hbound
  | cons r rest ih =>
    intro s s1 evs hbound h
    cases r with
    | entry addr => exact ih s s1 evs hbound h
    | seg f a p =>
      simp only [processRecords] at h
      cases hps : processSegment cfg enc s f a p with
      | error e => simp only [hps] at h; exact Except.noConfusion h
      | ok v =>
        obtain ⟨s2, evs1⟩ := v
        simp only [hps] at h
        cases hpr : processRecords cfg enc rest s2 with
        | error e => simp only [hps, hpr] at h; exact Except.noConfusion h
        | ok w =>
          obtain ⟨s3, evs2⟩ := w
          simp only [hpr] at h
          simp only [Except.ok.injEq, Prod.mk.injEq] at h
          obtain ⟨h1, -⟩ := h
          rw [← h1]
          exact ih s2 s3 evs2
            (processSegment_zbuf_bound cfg enc s f a p s2 evs1 hbound hps)
            hpr

/-- C6: the run buffer's capacity (the 8 KiB `z80_buffer`,
lines 63 and 286-293): when an open run is continued and the buffer's
accumulated length plus the incoming segment's length would exceed
0x2000 bytes, the conversion aborts fatally — the check precedes the
copy, so the error is raised before any payload byte enters the
buffer; the same holds for the first segment of a fresh run (whose
buffer starts empty); consequently the accumulated length never
exceeds 0x2000 across any segment or any whole processing run, so the
buffer write stays in bounds. -/
theorem claim6_buffer_capacity :
    (∀ (cfg : Config) (enc : Enc) (s : St) (f a : Nat) (p : List Nat),
        isCont s f a = true → 0x2000 < s.zbuf.length + p.length →
        processSegment cfg enc s f a p = .error .bufferTooLarge)
      ∧ (∀ (cfg : Config) (enc : Enc) (s : St) (f a : Nat)
          (p : List Nat) (s2 : St) (sz : Nat) (evs0 : List Ev),
          isCont s f a = false → (matchingSpec cfg f a).isSome = true →
          emit enc s = .ok (s2, sz, evs0) → 0x2000 < p.length →
          processSegment cfg enc s f a p = .error .bufferTooLarge)
      ∧ (∀ (cfg : Config) (enc : Enc) (s : St) (f a : Nat)
          (p : List Nat) (s1 : St) (evs : List Ev),
          s.zbuf.length ≤ 0x2000 →
          processSegment cfg enc s f a p = .ok (s1, evs) →
          s1.zbuf.length ≤ 0x2000)
      ∧ (∀ (cfg : Config) (enc : Enc) (recs : List Rec) (s s1 : St)
          (evs : List Ev), s.zbuf.length ≤ 0x2000 →
          processRecords cfg enc recs s = .ok (s1, evs) →
          s1.zbuf.length ≤ 0x2000) := by
  refine ⟨?_, ?_, processSegment_zbuf_bound, processRecords_zbuf_bound⟩
  · intro cfg enc s f a p hcont hgt
    unfold processSegment
    rw [if_pos (by rw [hcont, Bool.or_true])]
    unfold runStep
    rw [if_pos hcont]
    simp only [appendStep]
    rw [if_pos (by simpa using hgt)]
  · intro cfg enc s f a p s2 sz evs0 hcont hmat hemit hgt
    unfold processSegment
    rw [if_pos (by rw [hmat, Bool.true_or])]
    unfold runStep
    rw [if_neg (by simp [hcont])]
    rw [hemit]
    have happ : appendStep (openRun cfg s2 f a) a p
        = .error .bufferTooLarge := by
      simp only [appendStep, openRun]
      rw [if_pos (by simpa using hgt)]
    simp only [happ]

theorem claim6_witness :
    processSegment cfgC1 encId stC6 0x51 2 (List.replicate 0x2001 0)
        = .error .bufferTooLarge
      ∧ processSegment cfgC1 encId initialState 0x51 0
          (List.replicate 0x2001 0) = .error .bufferTooLarge
      ∧ stC6.zbuf.length ≤ 0x2000
      ∧ stC1.zbuf.length ≤ 0x2000 :=
  ⟨claim6_buffer_capacity.1 cfgC1 encId stC6 0x51 2
      (List.replicate 0x2001 0) rfl
      (by simp only [stC6, initialState, List.length_replicate]; omega),
   claim6_buffer_capacity.2.1 cfgC1 encId initialState 0x51 0
      (List.replicate 0x2001 0) initialState 0
      [.flushed false 0 0] rfl rfl rfl
      (by rw [List.length_replicate]; omega),
   claim6_buffer_capacity.2.2.1 cfgC1 encId initialState 0x51 0 [1, 2]
      stC6 [.flushed false 0 0, .opened 0] (by decide) rfl,
   claim6_buffer_capacity.2.2.2 cfgC1 encId recsC1 initialState stC1
      evsC1 (by decide) rfl⟩

theorem claim9_witness :
    (codecOutput encId .kosinski [1, 2, 3]).length % 16 = 0
      ∧ (codecOutput encId .kosinski [1, 2, 3]).take 3 = [1, 2, 3]
      ∧ (∀ b ∈ (codecOutput encId .kosinski [1, 2, 3]).drop 3, b = 0)
      ∧ codecOutput encId .saxman [1, 2, 3] = [1, 2, 3] ++ [0x4E]
      ∧ (codecOutput encId .saxman [1, 2, 3]).getLast? = some 0x4E
      ∧ 16 % 16 = 0 :=
  have h := claim9_codec_framing encId [1, 2, 3]
  ⟨h.1, h.2.1, h.2.2.1, h.2.2.2.1, h.2.2.2.2.1,
   h.2.2.2.2.2 stC9 specC9 stC9out 16 [.flushed true 0 16]
     rfl rfl rfl rfl⟩

/-! ## Claim C10 -/

theorem padTo_mod (cfg : Config) (s : St) (start : Nat) :
    padTo { cfg with paddingValue := cfg.paddingValue % 256 } s start
      = padTo cfg s start := by
  unfold padTo
  rw [show ({ cfg with paddingValue := cfg.paddingValue % 256 }
        : Config).paddingValue = cfg.paddingValue % 256 from rfl,
    Nat.mod_mod_of_dvd _ (dvd_refl 256)]

theorem writePlain_mod (cfg : Config) (s : St) (start : Nat)
    (payload : List Nat) :
    writePlain { cfg with paddingValue := cfg.paddingValue % 256 } s
        start payload = writePlain cfg s start payload := by
  unfold writePlain
  rw [padTo_mod]

theorem plainStep_mod (cfg : Config) (enc : Enc) (s : St) (start : Nat)
    (payload : List Nat) :
    plainStep { cfg with paddingValue := cfg.paddingValue % 256 } enc s
        start payload = plainStep cfg enc s start payload := by
  unfold plainStep
  cases hc : s.current with
  | none => rw [writePlain_mod]
  | some seg =>
    cases hemit : emit enc s with
    | error e => rfl
    | ok v =>
      obtain ⟨s2, sz, evs0⟩ := v
      dsimp only
      by_cases hcond : (seg.type == SegType.after
          && decide (start < s2.cursor)) = true
      · rw [if_pos hcond, if_pos hcond]
      · rw [if_neg hcond, if_neg hcond]
        rw [show reportStep { cfg with
            paddingValue := cfg.paddingValue % 256 } s2 sz
            = reportStep cfg s2 sz from rfl, writePlain_mod]

theorem processSegment_mod (cfg : Config) (enc : Enc) (s : St)
    (f a : Nat) (p : List Nat) :
    processSegment { cfg with paddingValue := cfg.paddingValue % 256 }
        enc s f a p = processSegment cfg enc s f a p := by
  unfold processSegment
  rw [show matchingSpec { cfg with paddingValue := cfg.paddingValue % 256 }
      f a = matchingSpec cfg f a from rfl]
  by_cases hel : ((matchingSpec cfg f a).isSome || isCont s f a) = true
  · rw [if_pos hel, if_pos hel]
    rfl
  · rw [if_neg hel, if_neg hel]
    exact plainStep_mod cfg enc s a p

/-- C10: the padding byte actually written is the configured padding
value reduced modulo 256 — the `memset` of `padding_buffer` converts
the `unsigned int` `padding_value` to `unsigned char` (line 363), and
the CLI accepts any `%X` value with only a TODO where an overflow
error would go (lines 553-558).  Segment processing cannot distinguish
a padding value from its low byte (no error, no warning, identical
behaviour), and every byte written into a padding gap equals
`padding_value % 256`. -/
theorem claim10_padding_truncated_mod_256 :
    (∀ (cfg : Config) (enc : Enc) (s : St) (f a : Nat) (p : List Nat),
        processSegment { cfg with paddingValue := cfg.paddingValue % 256 }
            enc s f a p = processSegment cfg enc s f a p)
      ∧ (∀ (cfg : Config) (s : St) (start : Nat) (payload : List Nat),
          s.file.length = s.maximumAddress → s.maximumAddress < start →
          ∀ b ∈ ((writePlain cfg s start payload).1.file.drop
              s.maximumAddress).take (start - s.maximumAddress),
            b = cfg.paddingValue % 256) := by
  refine ⟨processSegment_mod, ?_⟩
  intro cfg s start payload hlen hgt b hb
  rw [writePlain_pad_content cfg s start payload hlen hgt] at hb
  rw [List.append_assoc, ← hlen, List.drop_left] at hb
  rw [List.take_left' (by rw [List.length_replicate])] at hb
  exact List.eq_of_mem_replicate hb

theorem claim10_witness :
    (∀ b ∈ ((writePlain cfgC10 initialState 3 [9]).1.file.drop 0).take 3,
        b = cfgC10.paddingValue % 256)
      ∧ cfgC10.paddingValue % 256 = 0xFF
      ∧ cfgC10.paddingValue = 0x1FF :=
  ⟨claim10_padding_truncated_mod_256.2 cfgC10 initialState 3 [9] rfl
      (by decide),
   by decide, rfl⟩

end P2bin
